import Mathlib

/-!
Verification of the msg markup library: shallow embedding of the lexer
(src/token.rs), parser (src/parser.rs), AST (src/ast.rs), condition
evaluator (src/conditional.rs) and generator (src/generator.rs), together
with theorems settling the frozen claims about the specification.

Strings are modelled as `List Char` (Rust `String` / `&str` at the level of
`chars()`); byte lengths and char counts coincide on the ASCII data the
claims exercise.  Machine integers (`u64`, `usize`) are modelled as `Nat`.
Fallible Rust functions returning `Result` are modelled with `Except`.
-/

set_option autoImplicit false

namespace Msg

/-! ## Tokens (src/token.rs, `enum Token`) -/

inductive Token where
  | Text (s : List Char)
  | Bold
  | Italic
  | Code
  | Pre
  | PreLanguage (s : List Char)
  | Underline
  | Strikethrough
  | Spoiler
  | Link (s : List Char)
  | Mention (s : List Char)
  | MentionId (id : Nat)
  | Hashtag (s : List Char)
  | Command (s : List Char)
  | Emoji (s : List Char)
  | CustomEmoji (s : List Char) (id : Nat)
  | LineBreak
  | Escape (c : Char)
  | LeftParen
  | RightParen
  | LeftBracket
  | RightBracket
  | LeftBrace
  | RightBrace
  | Star
  | Underscore
  | Backtick
  | Tilde
  | Pipe
  | At
  | Hash
  | Slash
  | Eof
  deriving DecidableEq, Repr

/-! ## Lexer (src/token.rs, `impl Lexer`) -/

/-- The characters on which `Lexer::read_text` stops: the match list in
`read_text` (src/token.rs lines 183-203), which is also exactly the set of
characters given special treatment by `next_token`. -/
def reservedChar (c : Char) : Bool :=
  c = '*' || c = '_' || c = '\x60' || c = '~' || c = '|' || c = '@' ||
  c = '#' || c = '/' || c = '(' || c = ')' || c = '[' || c = ']' ||
  c = '\x7b' || c = '\x7d' || c = '\\' || c = '\n'

/-- `Lexer::read_text`: the maximal run of non-reserved characters, together
with the remaining input. -/
def read_text : List Char → List Char × List Char
  | [] => ([], [])
  | c :: cs =>
    if reservedChar c then ([], c :: cs)
    else
      let p := read_text cs
      (c :: p.1, p.2)

/-- The character class accepted in mention/hashtag/command names
(`ch.is_alphanumeric() || ch == '_'`; Unicode alphanumerics are modelled by
`Char.isAlphanum`, which agrees on the ASCII inputs the claims use). -/
def identChar (c : Char) : Bool :=
  c.isAlphanum || c = '_'

/-- Longest run of `identChar` characters plus the rest of the input. -/
def read_ident : List Char → List Char × List Char
  | [] => ([], [])
  | c :: cs =>
    if identChar c then
      let p := read_ident cs
      (c :: p.1, p.2)
    else ([], c :: cs)

/-- `Lexer::read_mention`: `none` models the position rollback on an empty
identifier run. -/
def read_mention (cs : List Char) : Option (List Char × List Char) :=
  let p := read_ident cs
  if p.1.isEmpty then none else some p

/-- `Lexer::read_hashtag`. -/
def read_hashtag (cs : List Char) : Option (List Char × List Char) :=
  let p := read_ident cs
  if p.1.isEmpty then none else some p

/-- `Lexer::read_command`. -/
def read_command (cs : List Char) : Option (List Char × List Char) :=
  let p := read_ident cs
  if p.1.isEmpty then none else some p

/-- `Lexer::next_token` on a non-empty input `c :: cs`: returns the token and
the input remaining after it.  The branch order follows the `match` in the
source. -/
def next_token (c : Char) (cs : List Char) : Token × List Char :=
  if c = '*' then (Token.Star, cs)
  else if c = '_' then (Token.Underscore, cs)
  else if c = '\x60' then (Token.Backtick, cs)
  else if c = '~' then (Token.Tilde, cs)
  else if c = '|' then (Token.Pipe, cs)
  else if c = '@' then
    match read_mention cs with
    | some p => (Token.Mention p.1, p.2)
    | none => (Token.At, cs)
  else if c = '#' then
    match read_hashtag cs with
    | some p => (Token.Hashtag p.1, p.2)
    | none => (Token.Hash, cs)
  else if c = '/' then
    match read_command cs with
    | some p => (Token.Command p.1, p.2)
    | none => (Token.Slash, cs)
  else if c = '(' then (Token.LeftParen, cs)
  else if c = ')' then (Token.RightParen, cs)
  else if c = '[' then (Token.LeftBracket, cs)
  else if c = ']' then (Token.RightBracket, cs)
  else if c = '\x7b' then (Token.LeftBrace, cs)
  else if c = '\x7d' then (Token.RightBrace, cs)
  else if c = '\\' then
    match cs with
    | c2 :: rest => (Token.Escape c2, rest)
    | [] => (Token.Text ['\\'], [])
  else if c = '\n' then (Token.LineBreak, cs)
  else
    let p := read_text (c :: cs)
    (Token.Text p.1, p.2)

/-- The loop of `Lexer::tokenize`, with fuel standing in for the variable
amount of input each `next_token` call consumes; `tokenize` always supplies
enough fuel (each call consumes at least one character), so the `0` case is
unreachable from `tokenize`. -/
def tokenize_go : Nat → List Char → List Token
  | _, [] => [Token.Eof]
  | 0, _ => [Token.Eof]
  | fuel + 1, c :: cs =>
    let p := next_token c cs
    p.1 :: tokenize_go fuel p.2

/-- `Lexer::tokenize`. -/
def tokenize (cs : List Char) : List Token :=
  tokenize_go (cs.length + 1) cs

/-! ## Errors (src/error.rs, `enum Error`) -/

inductive Error where
  | Parse (msg : List Char)
  | InvalidToken (position : Nat) (message : List Char)
  | UnexpectedEof
  | FormatterNotFound (name : List Char)
  | InvalidFormatterValue (msg : List Char)
  | Generation (msg : List Char)
  | InvalidTable (msg : List Char)
  | Regex (msg : List Char)
  deriving DecidableEq, Repr

/-! ## AST (src/ast.rs)

`PreBlock` is inlined into the `Pre` constructor.  `TableNode` in the source
also carries `rules: Vec<ConditionalFormat>`, where `ConditionalFormat`
holds a bare function pointer `fn(Vec<Element>) -> Vec<Element>`; that field
cannot appear inside the inductive (the function type mentions `Element`
negatively) and is never read by the generator, so it is omitted here. -/

inductive ListStyle where
  | Bullet
  | Numbered
  | Custom (marker : List Char)
  deriving DecidableEq, Repr

inductive CellAlign where
  | Left
  | Center
  | Right
  deriving DecidableEq, Repr

inductive TableStyle where
  | Ascii
  | Unicode
  | Minimal
  | Compact
  deriving DecidableEq, Repr

mutual

inductive Element where
  | Text (s : List Char)
  | Bold (children : List Element)
  | Italic (children : List Element)
  | Code (s : List Char)
  | Pre (code : List Char) (language : Option (List Char))
  | Underline (children : List Element)
  | Strikethrough (children : List Element)
  | Spoiler (children : List Element)
  | Link (text : List Element) (url : List Char)
  | TextLink (text : List Char) (url : List Char)
  | Mention (username : List Char)
  | MentionId (user_id : Nat) (text : List Char)
  | Hashtag (tag : List Char)
  | Command (name : List Char) (args : List (List Char))
  | Emoji (s : List Char)
  | CustomEmoji (emoji : List Char) (id : Nat)
  | List (node : ListNode)
  | Table (node : TableNode)
  | Quote (children : List Element)
  | Custom (formatter : List Char) (value : List Char)
  | Group (children : List Element)

inductive ListNode where
  | mk (style : ListStyle) (items : List ListItem)

inductive ListItem where
  | mk (content : List Element) (nested : Option ListNode)

inductive TableNode where
  | mk (headers : List TableCell) (rows : List TableRow) (style : TableStyle)

inductive TableRow where
  | mk (cells : List TableCell)

inductive TableCell where
  | mk (content : List Element) (align : CellAlign) (colspan : Nat) (rowspan : Nat)

end

def ListNode.style : ListNode → ListStyle
  | .mk s _ => s

def ListNode.items : ListNode → List ListItem
  | .mk _ i => i

def ListItem.content : ListItem → List Element
  | .mk c _ => c

def ListItem.nested : ListItem → Option ListNode
  | .mk _ n => n

def TableNode.headers : TableNode → List TableCell
  | .mk h _ _ => h

def TableNode.rows : TableNode → List TableRow
  | .mk _ r _ => r

def TableNode.tstyle : TableNode → TableStyle
  | .mk _ _ s => s

def TableRow.cells : TableRow → List TableCell
  | .mk c => c

def TableCell.content : TableCell → List Element
  | .mk c _ _ _ => c

def TableCell.align : TableCell → CellAlign
  | .mk _ a _ _ => a

/-! ## Condition evaluator (src/conditional.rs)

The numeric domain of `f64` thresholds is modelled as `Rat`; the two
functions external to this repository — `str::parse::<f64>` and
`regex::Regex::new` — are passed in as oracles (`parse_f64` returns the
parsed number or `none`, `regex_new` returns the compiled matcher or
`none`), so `evaluate` itself is exactly the `match` in the source. -/

inductive Condition where
  | GreaterThan (threshold : Rat)
  | LessThan (threshold : Rat)
  | Equals (expected : List Char)
  | Contains (substring : List Char)
  | Regex (pattern : List Char)
  | Custom (name : List Char)

/-- `str::starts_with` on char lists (helper for `has_sub`). -/
def starts_with : List Char → List Char → Bool
  | [], _ => true
  | _ :: _, [] => false
  | n :: ns, h :: hs => n = h && starts_with ns hs

/-- `str::contains(substring)`: some suffix of the haystack starts with the
needle. -/
def has_sub (needle : List Char) : List Char → Bool
  | [] => needle.isEmpty
  | c :: rest => starts_with needle (c :: rest) || has_sub needle rest

/-- `Condition::evaluate` (src/conditional.rs lines 4-21). -/
def Condition.evaluate (parse_f64 : List Char → Option Rat)
    (regex_new : List Char → Option (List Char → Bool)) :
    Condition → List Char → Bool
  | .GreaterThan threshold, value =>
    match parse_f64 value with
    | some v => decide (threshold < v)
    | none => false
  | .LessThan threshold, value =>
    match parse_f64 value with
    | some v => decide (v < threshold)
    | none => false
  | .Equals expected, value => value = expected
  | .Contains substring, value => has_sub substring value
  | .Regex pattern, value =>
    match regex_new pattern with
    | some re => re value
    | none => false
  | .Custom _, _ => false

/-! ## Parser (src/parser.rs)

The token stream is the list of tokens not yet consumed; each function
returns its parse result together with the remaining tokens.  The mutually
recursive family (`parse_element` and the `parse_until_*` scanners) takes a
fuel argument standing in for the well-founded recursion of the source (each
loop iteration consumes at least one token); `parse` supplies fuel
proportional to the token count, which is always sufficient, so the fuel-out
error is unreachable from `parse`.  The messages of `ParseStream::consume`
mismatches (`format!("Expected {:?}, found {:?}", ..)`) are abridged to a
fixed string; no claim depends on their text. -/

/-- The loop of `parse_pre_block` (src/parser.rs lines 186-217): `code` and
`backtick_count` are the mutable accumulators of the source. -/
def pre_loop (language : Option (List Char)) (code : List Char)
    (backtick_count : Nat) : List Token → Except Error (Element × List Token)
  | [] => .error (.Parse ("Unclosed pre block".toList))
  | Token.Backtick :: rest =>
    if backtick_count + 1 = 3 then .ok (.Pre code language, rest)
    else pre_loop language (code ++ ['\x60']) (backtick_count + 1) rest
  | Token.Text t :: rest => pre_loop language (code ++ t) 0 rest
  | Token.LineBreak :: rest => pre_loop language (code ++ ['\n']) 0 rest
  | _ :: rest => pre_loop language code 0 rest

/-- `parse_pre_block` (src/parser.rs lines 170-218): optional language tag
from a leading text token, then one line break is consumed if the language
was present, then the accumulation loop. -/
def parse_pre_block (ts : List Token) : Except Error (Element × List Token) :=
  match ts with
  | Token.Text lang :: rest =>
    match rest with
    | Token.LineBreak :: rest2 => pre_loop (some lang) [] 0 rest2
    | _ => pre_loop (some lang) [] 0 rest
  | _ => pre_loop none [] 0 ts

/-- The single-backtick loop of `parse_code_or_pre` (src/parser.rs lines
152-166): only text tokens accumulate; a backtick closes; anything else
(including end of stream) aborts with "Unclosed code block". -/
def code_loop (code : List Char) : List Token → Except Error (Element × List Token)
  | Token.Backtick :: rest => .ok (.Code code, rest)
  | Token.Text t :: rest => code_loop (code ++ t) rest
  | _ => .error (.Parse ("Unclosed code block".toList))

/-- `parse_code_or_pre` (src/parser.rs lines 140-168). -/
def parse_code_or_pre (ts : List Token) : Except Error (Element × List Token) :=
  match ts with
  | Token.Backtick :: rest =>
    match rest with
    | Token.Backtick :: rest2 =>
      match rest2 with
      | Token.Backtick :: rest3 => parse_pre_block rest3
      | _ => .ok (.Code [], rest2)
    | _ => code_loop [] rest
  | _ :: _ => .error (.Parse ("Expected token".toList))
  | [] => .error .UnexpectedEof

/-- The URL loop of `parse_link` (src/parser.rs lines 240-314): bracket and
punctuation tokens are reinterpreted back into literal characters; any other
token (or end of stream) yields "Unclosed link". -/
def link_url_loop (text : List Element) (url : List Char) :
    List Token → Except Error (Element × List Token)
  | Token.RightParen :: rest => .ok (.Link text url, rest)
  | Token.Text t :: rest => link_url_loop text (url ++ t) rest
  | Token.Slash :: rest => link_url_loop text (url ++ ['/']) rest
  | Token.At :: rest => link_url_loop text (url ++ ['@']) rest
  | Token.Hash :: rest => link_url_loop text (url ++ ['#']) rest
  | Token.Underscore :: rest => link_url_loop text (url ++ ['_']) rest
  | Token.Star :: rest => link_url_loop text (url ++ ['*']) rest
  | Token.Tilde :: rest => link_url_loop text (url ++ ['~']) rest
  | Token.Pipe :: rest => link_url_loop text (url ++ ['|']) rest
  | Token.LeftBracket :: rest => link_url_loop text (url ++ ['[']) rest
  | Token.RightBracket :: rest => link_url_loop text (url ++ [']']) rest
  | Token.LeftBrace :: rest => link_url_loop text (url ++ ['\x7b']) rest
  | Token.RightBrace :: rest => link_url_loop text (url ++ ['\x7d']) rest
  | Token.Command cmd :: rest => link_url_loop text (url ++ '/' :: cmd) rest
  | Token.Mention name :: rest => link_url_loop text (url ++ '@' :: name) rest
  | Token.Hashtag tag :: rest => link_url_loop text (url ++ '#' :: tag) rest
  | _ => .error (.Parse ("Unclosed link".toList))

mutual

/-- `parse_element` (src/parser.rs lines 72-112): dispatch on the peeked
token. -/
def parse_element : Nat → List Token → Except Error (Element × List Token)
  | 0, _ => .error (.Parse ("fuel exhausted".toList))
  | fuel + 1, ts =>
    match ts with
    | Token.Star :: _ => parse_bold_or_italic fuel ts
    | Token.Underscore :: _ => parse_italic_or_underline fuel ts
    | Token.Backtick :: _ => parse_code_or_pre ts
    | Token.Tilde :: _ => parse_strikethrough_or_spoiler fuel ts
    | Token.LeftBracket :: _ => parse_link fuel ts
    | Token.Mention username :: rest => .ok (.Mention username, rest)
    | Token.Hashtag tag :: rest => .ok (.Hashtag tag, rest)
    | Token.Command cmd :: rest => .ok (.Command cmd [], rest)
    | Token.Text t :: rest => .ok (.Text t, rest)
    | Token.Escape c :: rest => .ok (.Text [c], rest)
    | Token.LineBreak :: rest => .ok (.Text ['\n'], rest)
    | [] => .ok (.Text [], [])
    | _ :: rest => .ok (.Text [], rest)

/-- `parse_bold_or_italic` (src/parser.rs lines 114-125). -/
def parse_bold_or_italic : Nat → List Token → Except Error (Element × List Token)
  | 0, _ => .error (.Parse ("fuel exhausted".toList))
  | fuel + 1, Token.Star :: rest =>
    match rest with
    | Token.Star :: rest2 => do
      let p ← parse_until_double_star fuel rest2
      .ok (.Bold p.1, p.2)
    | _ => do
      let p ← parse_until_single_star fuel rest
      .ok (.Italic p.1, p.2)
  | _ + 1, _ :: _ => .error (.Parse ("Expected token".toList))
  | _ + 1, [] => .error .UnexpectedEof

/-- `parse_italic_or_underline` (src/parser.rs lines 127-138). -/
def parse_italic_or_underline : Nat → List Token → Except Error (Element × List Token)
  | 0, _ => .error (.Parse ("fuel exhausted".toList))
  | fuel + 1, Token.Underscore :: rest =>
    match rest with
    | Token.Underscore :: rest2 => do
      let p ← parse_until_double_underscore fuel rest2
      .ok (.Underline p.1, p.2)
    | _ => do
      let p ← parse_until_single_underscore fuel rest
      .ok (.Italic p.1, p.2)
  | _ + 1, _ :: _ => .error (.Parse ("Expected token".toList))
  | _ + 1, [] => .error .UnexpectedEof

/-- `parse_strikethrough_or_spoiler` (src/parser.rs lines 220-231). -/
def parse_strikethrough_or_spoiler : Nat → List Token → Except Error (Element × List Token)
  | 0, _ => .error (.Parse ("fuel exhausted".toList))
  | fuel + 1, Token.Tilde :: rest =>
    match rest with
    | Token.Tilde :: rest2 => do
      let p ← parse_until_double_tilde fuel rest2
      .ok (.Strikethrough p.1, p.2)
    | _ => do
      let p ← parse_until_single_tilde fuel rest
      .ok (.Spoiler p.1, p.2)
  | _ + 1, _ :: _ => .error (.Parse ("Expected token".toList))
  | _ + 1, [] => .error .UnexpectedEof

/-- `parse_link` (src/parser.rs lines 233-315): bracketed text parsed
recursively, then `]`, `(` consumed, then the URL loop. -/
def parse_link : Nat → List Token → Except Error (Element × List Token)
  | 0, _ => .error (.Parse ("fuel exhausted".toList))
  | fuel + 1, Token.LeftBracket :: rest => do
    let p ← parse_until_right_bracket fuel rest
    match p.2 with
    | Token.RightBracket :: rest2 =>
      match rest2 with
      | Token.LeftParen :: rest3 => link_url_loop p.1 [] rest3
      | _ :: _ => .error (.Parse ("Expected token".toList))
      | [] => .error .UnexpectedEof
    | _ :: _ => .error (.Parse ("Expected token".toList))
    | [] => .error .UnexpectedEof
  | _ + 1, _ :: _ => .error (.Parse ("Expected token".toList))
  | _ + 1, [] => .error .UnexpectedEof

/-- `parse_until_double_star` (src/parser.rs lines 317-332). -/
def parse_until_double_star : Nat → List Token → Except Error (List Element × List Token)
  | _, [] => .error (.Parse ("Unclosed bold".toList))
  | 0, _ => .error (.Parse ("fuel exhausted".toList))
  | fuel + 1, Token.Star :: Token.Star :: rest => .ok ([], rest)
  | fuel + 1, ts => do
    let p ← parse_element fuel ts
    let q ← parse_until_double_star fuel p.2
    .ok (p.1 :: q.1, q.2)

/-- `parse_until_single_star` (src/parser.rs lines 334-346). -/
def parse_until_single_star : Nat → List Token → Except Error (List Element × List Token)
  | _, [] => .error (.Parse ("Unclosed italic".toList))
  | 0, _ => .error (.Parse ("fuel exhausted".toList))
  | fuel + 1, Token.Star :: rest => .ok ([], rest)
  | fuel + 1, ts => do
    let p ← parse_element fuel ts
    let q ← parse_until_single_star fuel p.2
    .ok (p.1 :: q.1, q.2)

/-- `parse_until_double_underscore` (src/parser.rs lines 348-363). -/
def parse_until_double_underscore : Nat → List Token → Except Error (List Element × List Token)
  | _, [] => .error (.Parse ("Unclosed underline".toList))
  | 0, _ => .error (.Parse ("fuel exhausted".toList))
  | fuel + 1, Token.Underscore :: Token.Underscore :: rest => .ok ([], rest)
  | fuel + 1, ts => do
    let p ← parse_element fuel ts
    let q ← parse_until_double_underscore fuel p.2
    .ok (p.1 :: q.1, q.2)

/-- `parse_until_single_underscore` (src/parser.rs lines 365-377). -/
def parse_until_single_underscore : Nat → List Token → Except Error (List Element × List Token)
  | _, [] => .error (.Parse ("Unclosed italic".toList))
  | 0, _ => .error (.Parse ("fuel exhausted".toList))
  | fuel + 1, Token.Underscore :: rest => .ok ([], rest)
  | fuel + 1, ts => do
    let p ← parse_element fuel ts
    let q ← parse_until_single_underscore fuel p.2
    .ok (p.1 :: q.1, q.2)

/-- `parse_until_double_tilde` (src/parser.rs lines 379-394). -/
def parse_until_double_tilde : Nat → List Token → Except Error (List Element × List Token)
  | _, [] => .error (.Parse ("Unclosed strikethrough".toList))
  | 0, _ => .error (.Parse ("fuel exhausted".toList))
  | fuel + 1, Token.Tilde :: Token.Tilde :: rest => .ok ([], rest)
  | fuel + 1, ts => do
    let p ← parse_element fuel ts
    let q ← parse_until_double_tilde fuel p.2
    .ok (p.1 :: q.1, q.2)

/-- `parse_until_single_tilde` (src/parser.rs lines 396-408). -/
def parse_until_single_tilde : Nat → List Token → Except Error (List Element × List Token)
  | _, [] => .error (.Parse ("Unclosed spoiler".toList))
  | 0, _ => .error (.Parse ("fuel exhausted".toList))
  | fuel + 1, Token.Tilde :: rest => .ok ([], rest)
  | fuel + 1, ts => do
    let p ← parse_element fuel ts
    let q ← parse_until_single_tilde fuel p.2
    .ok (p.1 :: q.1, q.2)

/-- `parse_until_right_bracket` (src/parser.rs lines 410-421): the closing
bracket is left unconsumed. -/
def parse_until_right_bracket : Nat → List Token → Except Error (List Element × List Token)
  | _, [] => .error (.Parse ("Unclosed bracket".toList))
  | 0, _ => .error (.Parse ("fuel exhausted".toList))
  | _ + 1, Token.RightBracket :: rest => .ok ([], Token.RightBracket :: rest)
  | fuel + 1, ts => do
    let p ← parse_element fuel ts
    let q ← parse_until_right_bracket fuel p.2
    .ok (p.1 :: q.1, q.2)

end

/-- The `while !stream.is_at_end()` loop of `parse` (src/parser.rs lines
63-67): stops at `Eof` or past the end of the tokens. -/
def parse_loop : Nat → List Token → Except Error (List Element)
  | _, [] => .ok []
  | _, Token.Eof :: _ => .ok []
  | 0, _ => .error (.Parse ("fuel exhausted".toList))
  | fuel + 1, ts => do
    let p ← parse_element fuel ts
    let es ← parse_loop fuel p.2
    .ok (p.1 :: es)

/-- `parse` (src/parser.rs lines 58-70): tokenize, then parse elements until
end of stream.  The fuel bound is generous: the recursion depth of the
parser is at most a small multiple of the token count. -/
def parse (cs : List Char) : Except Error (List Element) :=
  let ts := tokenize cs
  parse_loop (8 * ts.length + 8) ts

/-! ## Generator (src/generator.rs)

The writer is modelled as string accumulation: `write!` into a `String`
never fails in the source, so the `Error::Generation` wrapping of write
failures is unreachable in this model and the table/row helpers (whose only
fallible operations are writes) are plain functions.  `_mode` parameters
that the source ignores are dropped. -/

inductive ParseMode where
  | MarkdownV2
  | Html
  deriving DecidableEq, Repr

/-- `String::replace` with a single-character pattern. -/
def replace_char (a : Char) (r : List Char) : List Char → List Char
  | [] => []
  | c :: cs => (if c = a then r else [c]) ++ replace_char a r cs

/-- The characters escaped by `escape_text` in MarkdownV2 mode
(src/generator.rs lines 520-521). -/
def md_escape_char (c : Char) : Bool :=
  c = '_' || c = '*' || c = '[' || c = ']' || c = '(' || c = ')' ||
  c = '~' || c = '\x60' || c = '>' || c = '#' || c = '+' || c = '-' ||
  c = '=' || c = '|' || c = '\x7b' || c = '\x7d' || c = '.' || c = '!'

/-- `escape_html` (src/generator.rs lines 543-548): four sequential
`replace` calls, `&` first. -/
def escape_html (text : List Char) : List Char :=
  replace_char '"' ['&', 'q', 'u', 'o', 't', ';']
    (replace_char '>' ['&', 'g', 't', ';']
      (replace_char '<' ['&', 'l', 't', ';']
        (replace_char '&' ['&', 'a', 'm', 'p', ';'] text)))

/-- `escape_text` (src/generator.rs lines 515-529). -/
def escape_text (mode : ParseMode) (text : List Char) : List Char :=
  match mode with
  | .MarkdownV2 => (text.map fun c => if md_escape_char c then ['\\', c] else [c]).flatten
  | .Html => escape_html text

/-- `escape_code` (src/generator.rs lines 531-533): backslash doubled, then
backticks escaped. -/
def escape_code (code : List Char) : List Char :=
  replace_char '\x60' ['\\', '\x60'] (replace_char '\\' ['\\', '\\'] code)

/-- `escape_pre` (src/generator.rs lines 535-537): same replacements as
`escape_code`. -/
def escape_pre (code : List Char) : List Char :=
  replace_char '\x60' ['\\', '\x60'] (replace_char '\\' ['\\', '\\'] code)

/-- `escape_url` (src/generator.rs lines 539-541). -/
def escape_url (url : List Char) : List Char :=
  replace_char ')' ['\\', ')'] url

/-- `format!("{}", n)` for the numeric ids. -/
def nat_chars (n : Nat) : List Char :=
  Nat.toDigits 10 n

/-- `str::lines` as used by list and quote rendering: split on newline, with
a final trailing newline producing no extra empty line. -/
def split_lines : List Char → List (List Char)
  | [] => [[]]
  | '\n' :: rest => [] :: split_lines rest
  | c :: rest =>
    match split_lines rest with
    | [] => [[c]]
    | l :: ls => (c :: l) :: ls

/-- `str::lines`. -/
def linesOf (cs : List Char) : List (List Char) :=
  let parts := split_lines cs
  if parts.getLast? = some [] then parts.dropLast else parts

/-- `slice::join` on char lists. -/
def joinSep (sep : List Char) : List (List Char) → List Char
  | [] => []
  | [x] => x
  | x :: xs => x ++ sep ++ joinSep sep xs

def spaces (n : Nat) : List Char :=
  List.replicate n ' '

/-! ### Table layout -/

/-- The cell content rendered by `format_table_row`: concatenation of the
`Text` children only (src/generator.rs lines 464-471). -/
def cell_text (cell : TableCell) : List Char :=
  (cell.content.map fun e =>
    match e with
    | .Text t => t
    | _ => []).flatten

/-- The cell content length used by `calculate_column_widths`
(src/generator.rs lines 499-506): `Text` children contribute their length,
every other child contributes 0. -/
def cell_width (cell : TableCell) : Nat :=
  (cell.content.map fun e =>
    match e with
    | .Text t => t.length
    | _ => 0).sum

/-- One row of the width-updating fold in `calculate_column_widths`:
positions beyond the width vector are ignored, positions beyond the row keep
their width. -/
def upd_widths : List Nat → List TableCell → List Nat
  | ws, [] => ws
  | [], _ => []
  | w :: ws, c :: cs => max w (cell_width c) :: upd_widths ws cs

/-- `calculate_column_widths` (src/generator.rs lines 488-513); the source
always returns `Ok`, so the `Result` wrapper is dropped. -/
def calculate_column_widths (rows : List (List TableCell)) : List Nat :=
  if rows.isEmpty then []
  else
    let col_count := (rows.map List.length).foldl max 0
    rows.foldl upd_widths (List.replicate col_count 0)

/-- `format!(" {:<w$} ", content)` and friends: one space, the content
padded to at least `w` (never truncated), one space.  Rust centering puts
the extra space on the right. -/
def pad_cell (cell : TableCell) (w : Nat) : List Char :=
  let content := cell_text cell
  match cell.align with
  | .Left => ' ' :: (content ++ spaces (w - content.length)) ++ [' ']
  | .Center =>
    let pad := w - content.length
    ' ' :: (spaces (pad / 2) ++ content ++ spaces (pad - pad / 2)) ++ [' ']
  | .Right => ' ' :: (spaces (w - content.length) ++ content) ++ [' ']

/-- The cell loop of `format_table_row` (src/generator.rs lines 462-482):
cells are rendered positionally against the width vector; a cell whose index
reaches past the width vector is skipped, and a width with no cell in this
row emits nothing. -/
def row_go (sep : List Char) : List TableCell → List Nat → List Char
  | [], _ => []
  | _, [] => []
  | c :: cs, w :: ws => pad_cell c w ++ sep ++ row_go sep cs ws

/-- `format_table_row` (src/generator.rs lines 452-485). -/
def format_table_row (cells : List TableCell) (ws : List Nat) (sep : List Char) : List Char :=
  sep ++ row_go sep cells ws

/-- `generate_unicode_table` (src/generator.rs lines 310-354). -/
def generate_unicode_table (t : TableNode) (ws : List Nat) : List Char :=
  "\x60\x60\x60\n┌".toList
    ++ joinSep ("┬".toList) (ws.map fun w => List.replicate (w + 2) '─')
    ++ "┐\n".toList
    ++ format_table_row t.headers ws ("│".toList)
    ++ "\n├".toList
    ++ joinSep ("┼".toList) (ws.map fun w => List.replicate (w + 2) '─')
    ++ "┤\n".toList
    ++ (t.rows.map fun r => format_table_row r.cells ws ("│".toList) ++ ['\n']).flatten
    ++ "└".toList
    ++ joinSep ("┴".toList) (ws.map fun w => List.replicate (w + 2) '─')
    ++ "┘\n\x60\x60\x60".toList

/-- `generate_ascii_table` (src/generator.rs lines 356-400). -/
def generate_ascii_table (t : TableNode) (ws : List Nat) : List Char :=
  "\x60\x60\x60\n+".toList
    ++ joinSep ("+".toList) (ws.map fun w => List.replicate (w + 2) '-')
    ++ "+\n".toList
    ++ format_table_row t.headers ws ("|".toList)
    ++ "\n+".toList
    ++ joinSep ("+".toList) (ws.map fun w => List.replicate (w + 2) '-')
    ++ "+\n".toList
    ++ (t.rows.map fun r => format_table_row r.cells ws ("|".toList) ++ ['\n']).flatten
    ++ "+".toList
    ++ joinSep ("+".toList) (ws.map fun w => List.replicate (w + 2) '-')
    ++ "+\n\x60\x60\x60".toList

/-- `generate_minimal_table` (src/generator.rs lines 402-429). -/
def generate_minimal_table (t : TableNode) (ws : List Nat) : List Char :=
  "\x60\x60\x60\n".toList
    ++ format_table_row t.headers ws [' ']
    ++ ['\n']
    ++ joinSep [' '] (ws.map fun w => List.replicate w '─')
    ++ ['\n']
    ++ (t.rows.map fun r => format_table_row r.cells ws [' '] ++ ['\n']).flatten
    ++ "\x60\x60\x60".toList

/-- `generate_compact_table` (src/generator.rs lines 431-450). -/
def generate_compact_table (t : TableNode) (ws : List Nat) : List Char :=
  "\x60\x60\x60\n".toList
    ++ format_table_row t.headers ws [' ']
    ++ ['\n']
    ++ (t.rows.map fun r => format_table_row r.cells ws [' '] ++ ['\n']).flatten
    ++ "\x60\x60\x60".toList

/-- `Generator::generate_table` (src/generator.rs lines 290-308): the width
vector is computed once from the header and all rows, then the style is
dispatched.  Every fallible operation in the source's table path is a write,
so this function is total. -/
def generate_table (t : TableNode) : List Char :=
  let all_rows := t.headers :: t.rows.map TableRow.cells
  let ws := calculate_column_widths all_rows
  match t.tstyle with
  | .Unicode => generate_unicode_table t ws
  | .Ascii => generate_ascii_table t ws
  | .Minimal => generate_minimal_table t ws
  | .Compact => generate_compact_table t ws

/-! ### Formatter registry and the element generator -/

/-- A registered custom formatter's `format` method
(src/formatter.rs, trait `CustomFormatter`). -/
def FormatterFn : Type :=
  List Char → ParseMode → Except Error (List Char)

/-- The name-keyed formatter table owned by a `Generator`. -/
def Registry : Type :=
  List (List Char × FormatterFn)

/-- `self.formatters.get(formatter)`. -/
def lookup_formatter : Registry → List Char → Option FormatterFn
  | [], _ => none
  | (n, f) :: rest, name => if n = name then some f else lookup_formatter rest name

/-- The `"{} "`-style prefix of one list item (src/generator.rs lines
262-266). -/
def item_marker (style : ListStyle) (i : Nat) : List Char :=
  match style with
  | .Bullet => "• ".toList
  | .Numbered => nat_chars (i + 1) ++ ". ".toList
  | .Custom marker => marker ++ [' ']

mutual

/-- `Generator::generate_element` (src/generator.rs lines 45-241). -/
def generate_element (mode : ParseMode) (reg : Registry) : Element → Except Error (List Char)
  | .Text t => .ok (escape_text mode t)
  | .Bold es => do
    let s ← generate_elements mode reg es
    match mode with
    | .MarkdownV2 => .ok ('*' :: s ++ ['*'])
    | .Html => .ok ("<b>".toList ++ s ++ "</b>".toList)
  | .Italic es => do
    let s ← generate_elements mode reg es
    match mode with
    | .MarkdownV2 => .ok ('_' :: s ++ ['_'])
    | .Html => .ok ("<i>".toList ++ s ++ "</i>".toList)
  | .Code c =>
    match mode with
    | .MarkdownV2 => .ok ('\x60' :: escape_code c ++ ['\x60'])
    | .Html => .ok ("<code>".toList ++ escape_html c ++ "</code>".toList)
  | .Pre c lang =>
    match mode with
    | .MarkdownV2 =>
      match lang with
      | some l =>
        .ok ("\x60\x60\x60".toList ++ l ++ '\n' :: escape_pre c ++ "\n\x60\x60\x60".toList)
      | none => .ok ("\x60\x60\x60\n".toList ++ escape_pre c ++ "\n\x60\x60\x60".toList)
    | .Html =>
      match lang with
      | some l =>
        .ok ("<pre><code class=\"language-".toList ++ escape_html l ++ "\">".toList
          ++ escape_html c ++ "</code></pre>".toList)
      | none => .ok ("<pre>".toList ++ escape_html c ++ "</pre>".toList)
  | .Underline es => do
    let s ← generate_elements mode reg es
    match mode with
    | .MarkdownV2 => .ok ("__".toList ++ s ++ "__".toList)
    | .Html => .ok ("<u>".toList ++ s ++ "</u>".toList)
  | .Strikethrough es => do
    let s ← generate_elements mode reg es
    match mode with
    | .MarkdownV2 => .ok ("~~".toList ++ s ++ "~~".toList)
    | .Html => .ok ("<s>".toList ++ s ++ "</s>".toList)
  | .Spoiler es => do
    let s ← generate_elements mode reg es
    match mode with
    | .MarkdownV2 => .ok ("||".toList ++ s ++ "||".toList)
    | .Html => .ok ("<tg-spoiler>".toList ++ s ++ "</tg-spoiler>".toList)
  | .Link text url => do
    let s ← generate_elements mode reg text
    match mode with
    | .MarkdownV2 => .ok ('[' :: s ++ "](".toList ++ escape_url url ++ [')'])
    | .Html =>
      .ok ("<a href=\"".toList ++ escape_html url ++ "\">".toList ++ s ++ "</a>".toList)
  | .TextLink text url =>
    match mode with
    | .MarkdownV2 =>
      .ok ('[' :: escape_text mode text ++ "](".toList ++ escape_url url ++ [')'])
    | .Html =>
      .ok ("<a href=\"".toList ++ escape_html url ++ "\">".toList
        ++ escape_html text ++ "</a>".toList)
  | .Mention username => .ok ('@' :: username)
  | .MentionId user_id text =>
    match mode with
    | .MarkdownV2 =>
      .ok ('[' :: escape_text mode text ++ "](tg://user?id=".toList
        ++ nat_chars user_id ++ [')'])
    | .Html =>
      .ok ("<a href=\"tg://user?id=".toList ++ nat_chars user_id ++ "\">".toList
        ++ escape_html text ++ "</a>".toList)
  | .Hashtag tag => .ok ('#' :: tag)
  | .Command name args =>
    if args.isEmpty then .ok ('/' :: name)
    else .ok ('/' :: name ++ ' ' :: joinSep [' '] args)
  | .Emoji e => .ok e
  | .CustomEmoji emoji id =>
    match mode with
    | .MarkdownV2 =>
      .ok ("![".toList ++ emoji ++ "](tg://emoji?id=".toList ++ nat_chars id ++ [')'])
    | .Html =>
      .ok ("<tg-emoji emoji-id=\"".toList ++ nat_chars id ++ "\">".toList
        ++ emoji ++ "</tg-emoji>".toList)
  | .List l => generate_list mode reg l
  | .Table t => .ok (generate_table t)
  | .Quote es => do
    let s ← generate_elements mode reg es
    match mode with
    | .MarkdownV2 => .ok ('>' :: joinSep ("\n>".toList) (linesOf s))
    | .Html => .ok ("<blockquote>".toList ++ s ++ "</blockquote>".toList)
  | .Custom name value =>
    match lookup_formatter reg name with
    | some f => do
      let r ← f value mode
      .ok r
    | none => .error (.FormatterNotFound name)
  | .Group es => generate_elements mode reg es

/-- `Generator::generate_elements` (src/generator.rs lines 243-253). -/
def generate_elements (mode : ParseMode) (reg : Registry) : List Element → Except Error (List Char)
  | [] => .ok []
  | e :: es => do
    let s ← generate_element mode reg e
    let r ← generate_elements mode reg es
    .ok (s ++ r)

/-- `Generator::generate_list` (src/generator.rs lines 255-288). -/
def generate_list (mode : ParseMode) (reg : Registry) : ListNode → Except Error (List Char)
  | .mk style items => generate_list_items mode reg style 0 items

/-- The item loop of `generate_list`: `i` is the 0-based index used for
numbered markers; a nested list is rendered recursively, then each of its
lines is emitted indented by two spaces and terminated by a newline
(the source's "Remove last newline" comment is not implemented); a newline
separator follows every item except the last. -/
def generate_list_items (mode : ParseMode) (reg : Registry) (style : ListStyle) (i : Nat) :
    List ListItem → Except Error (List Char)
  | [] => .ok []
  | .mk content (some nl) :: rest => do
    let s ← generate_elements mode reg content
    let s2 ← generate_list mode reg nl
    let tail ← generate_list_items mode reg style (i + 1) rest
    .ok (item_marker style i ++ s
      ++ '\n' :: ((linesOf s2).map fun l => ' ' :: ' ' :: (l ++ ['\n'])).flatten
      ++ (if rest.isEmpty then [] else ['\n']) ++ tail)
  | .mk content none :: rest => do
    let s ← generate_elements mode reg content
    let tail ← generate_list_items mode reg style (i + 1) rest
    .ok (item_marker style i ++ s ++ (if rest.isEmpty then [] else ['\n']) ++ tail)

end

/-! ## Specification-side definitions

These definitions are not translations of repository code; they state the
notions the claims quantify over (undoing dialect escaping, well-formed pre
content, reachability of custom formatters, totality of a registry). -/

mutual

/-- Undoes MarkdownV2 backslash escaping: a backslash deletes itself and
keeps the following character (formalises the claim's "identical to the
original once dialect escape sequences are undone"). -/
def md_unescape : List Char → List Char
  | [] => []
  | c :: rest =>
    if c = '\\' then md_take_next rest
    else c :: md_unescape rest
termination_by cs => (cs.length, 0)
decreasing_by all_goals
  first
  | (apply Prod.Lex.right; omega)
  | (simp only [List.length_cons]; apply Prod.Lex.left; omega)

/-- After a backslash: keep the next character literally; a dangling
backslash stays. -/
def md_take_next : List Char → List Char
  | [] => ['\\']
  | c2 :: rest2 => c2 :: md_unescape rest2
termination_by cs => (cs.length, 1)
decreasing_by all_goals
  first
  | (apply Prod.Lex.right; omega)
  | (simp only [List.length_cons]; apply Prod.Lex.left; omega)

end

mutual

/-- Undoes the four HTML entities produced by `escape_html`. -/
def html_unescape : List Char → List Char
  | [] => []
  | c :: rest =>
    if c = '&' then html_entity rest
    else c :: html_unescape rest
termination_by cs => (cs.length, 0)
decreasing_by all_goals
  first
  | (apply Prod.Lex.right; omega)
  | (simp only [List.length_cons]; apply Prod.Lex.left; omega)

/-- Decodes what follows an ampersand: a recognized entity tail, or a
literal ampersand. -/
def html_entity : List Char → List Char
  | 'a' :: 'm' :: 'p' :: ';' :: rest => '&' :: html_unescape rest
  | 'l' :: 't' :: ';' :: rest => '<' :: html_unescape rest
  | 'g' :: 't' :: ';' :: rest => '>' :: html_unescape rest
  | 'q' :: 'u' :: 'o' :: 't' :: ';' :: rest => '"' :: html_unescape rest
  | rest => '&' :: html_unescape rest
termination_by cs => (cs.length, 1)
decreasing_by all_goals
  first
  | (apply Prod.Lex.right; omega)
  | (simp only [List.length_cons]; apply Prod.Lex.left; omega)

end

/-- The dialect's unescaper. -/
def unescape (mode : ParseMode) (cs : List Char) : List Char :=
  match mode with
  | .MarkdownV2 => md_unescape cs
  | .Html => html_unescape cs

/-- What one character contributes to `escape_html` (proof-side reading of
the four sequential replaces). -/
def html_escape_char (c : Char) : List Char :=
  if c = '&' then ['&', 'a', 'm', 'p', ';']
  else if c = '<' then ['&', 'l', 't', ';']
  else if c = '>' then ['&', 'g', 't', ';']
  else if c = '"' then ['&', 'q', 'u', 'o', 't', ';']
  else [c]

/-- Pre-block content tokens that keep the close-counter away from 3: runs
of at most two backticks between text/line-break tokens, and no dangling
backtick run at the very end.  `k` is the current `backtick_count`. -/
def good_from (k : Nat) : List Token → Bool
  | [] => k == 0
  | Token.Backtick :: ts => decide (k + 1 ≤ 2) && good_from (k + 1) ts
  | Token.Text _ :: ts => good_from 0 ts
  | Token.LineBreak :: ts => good_from 0 ts
  | _ :: _ => false

/-- The raw text a pre-content token sequence denotes. -/
def flat_tok : List Token → List Char
  | [] => []
  | Token.Backtick :: ts => '\x60' :: flat_tok ts
  | Token.Text t :: ts => t ++ flat_tok ts
  | Token.LineBreak :: ts => '\n' :: flat_tok ts
  | _ :: ts => flat_tok ts

/-- Whether a token stream begins with a text token (which `parse_pre_block`
would capture as a language tag). -/
def head_is_text : List Token → Bool
  | Token.Text _ :: _ => true
  | _ => false

/-- Tokens an inline code span accumulates or closes on. -/
def text_or_backtick : Token → Bool
  | Token.Text _ => true
  | Token.Backtick => true
  | _ => false

/-- A registry whose formatters always succeed (all formatters shipped in
src/formatter.rs return `Ok` unconditionally). -/
def total_reg (reg : Registry) : Prop :=
  ∀ name f, lookup_formatter reg name = some f → ∀ v m, ∃ s, f v m = Except.ok s

/-- Generation outcome shape: success, or `FormatterNotFound` for a name
missing from the registry. -/
def fnf_shape (reg : Registry) (r : Except Error (List Char)) : Prop :=
  (∃ s, r = .ok s) ∨ ∃ name, r = .error (.FormatterNotFound name) ∧ lookup_formatter reg name = none

mutual

/-- No `Custom` node in any position the generator renders (table cells are
only scanned for `Text` content, so customs inside tables are never looked
up). -/
def no_custom : Element → Bool
  | .Text _ => true
  | .Bold es => no_custom_list es
  | .Italic es => no_custom_list es
  | .Code _ => true
  | .Pre _ _ => true
  | .Underline es => no_custom_list es
  | .Strikethrough es => no_custom_list es
  | .Spoiler es => no_custom_list es
  | .Link text _ => no_custom_list text
  | .TextLink _ _ => true
  | .Mention _ => true
  | .MentionId _ _ => true
  | .Hashtag _ => true
  | .Command _ _ => true
  | .Emoji _ => true
  | .CustomEmoji _ _ => true
  | .List l => no_custom_listnode l
  | .Table _ => true
  | .Quote es => no_custom_list es
  | .Custom _ _ => false
  | .Group es => no_custom_list es

def no_custom_list : List Element → Bool
  | [] => true
  | e :: es => no_custom e && no_custom_list es

def no_custom_listnode : ListNode → Bool
  | .mk _ items => no_custom_items items

def no_custom_items : List ListItem → Bool
  | [] => true
  | .mk content (some nl) :: rest =>
    no_custom_list content && no_custom_listnode nl && no_custom_items rest
  | .mk content none :: rest => no_custom_list content && no_custom_items rest

end

/-! ## Lexer lemmas -/

theorem read_text_rest_le (cs : List Char) : (read_text cs).2.length ≤ cs.length := by
  induction cs with
  | nil => simp [read_text]
  | cons c cs ih =>
    simp only [read_text]
    by_cases h : reservedChar c
    · simp [h]
    · simpa [h] using Nat.le_succ_of_le ih

theorem read_ident_rest_le (cs : List Char) : (read_ident cs).2.length ≤ cs.length := by
  induction cs with
  | nil => simp [read_ident]
  | cons c cs ih =>
    simp only [read_ident]
    by_cases h : identChar c
    · simpa [h] using Nat.le_succ_of_le ih
    · simp [h]

theorem read_mention_rest_le (cs : List Char) (p : List Char × List Char)
    (h : read_mention cs = some p) : p.2.length ≤ cs.length := by
  unfold read_mention at h
  by_cases he : (read_ident cs).1.isEmpty <;> simp [he] at h
  rw [← h]
  exact read_ident_rest_le cs

theorem read_hashtag_rest_le (cs : List Char) (p : List Char × List Char)
    (h : read_hashtag cs = some p) : p.2.length ≤ cs.length := by
  unfold read_hashtag at h
  by_cases he : (read_ident cs).1.isEmpty <;> simp [he] at h
  rw [← h]
  exact read_ident_rest_le cs

theorem read_command_rest_le (cs : List Char) (p : List Char × List Char)
    (h : read_command cs = some p) : p.2.length ≤ cs.length := by
  unfold read_command at h
  by_cases he : (read_ident cs).1.isEmpty <;> simp [he] at h
  rw [← h]
  exact read_ident_rest_le cs

theorem next_token_rest_le (c : Char) (cs : List Char) :
    (next_token c cs).2.length ≤ cs.length := by
  by_cases h1 : c = '*'
  · simp [next_token, h1]
  by_cases h2 : c = '_'
  · simp [next_token, h1, h2]
  by_cases h3 : c = '\x60'
  · simp [next_token, h1, h2, h3]
  by_cases h4 : c = '~'
  · simp [next_token, h1, h2, h3, h4]
  by_cases h5 : c = '|'
  · simp [next_token, h1, h2, h3, h4, h5]
  by_cases h6 : c = '@'
  · simp only [next_token, h1, h2, h3, h4, h5, h6, if_false, if_true, if_neg, if_pos]
    cases hm : read_mention cs with
    | none => simp
    | some p => simpa using read_mention_rest_le cs p hm
  by_cases h7 : c = '#'
  · simp only [next_token, h1, h2, h3, h4, h5, h6, h7, if_false, if_true, if_neg, if_pos]
    cases hm : read_hashtag cs with
    | none => simp
    | some p => simpa using read_hashtag_rest_le cs p hm
  by_cases h8 : c = '/'
  · simp only [next_token, h1, h2, h3, h4, h5, h6, h7, h8, if_false, if_true, if_neg, if_pos]
    cases hm : read_command cs with
    | none => simp
    | some p => simpa using read_command_rest_le cs p hm
  by_cases h9 : c = '('
  · simp [next_token, h1, h2, h3, h4, h5, h6, h7, h8, h9]
  by_cases h10 : c = ')'
  · simp [next_token, h1, h2, h3, h4, h5, h6, h7, h8, h9, h10]
  by_cases h11 : c = '['
  · simp [next_token, h1, h2, h3, h4, h5, h6, h7, h8, h9, h10, h11]
  by_cases h12 : c = ']'
  · simp [next_token, h1, h2, h3, h4, h5, h6, h7, h8, h9, h10, h11, h12]
  by_cases h13 : c = '\x7b'
  · simp [next_token, h1, h2, h3, h4, h5, h6, h7, h8, h9, h10, h11, h12, h13]
  by_cases h14 : c = '\x7d'
  · simp [next_token, h1, h2, h3, h4, h5, h6, h7, h8, h9, h10, h11, h12, h13, h14]
  by_cases h15 : c = '\\'
  · simp only [next_token, h1, h2, h3, h4, h5, h6, h7, h8, h9, h10, h11, h12, h13,
      h14, h15, if_false, if_true, if_neg, if_pos]
    cases cs with
    | nil => simp
    | cons c2 rest => simp
  by_cases h16 : c = '\n'
  · simp [next_token, h1, h2, h3, h4, h5, h6, h7, h8, h9, h10, h11, h12, h13, h14, h15, h16]
  · have hc : reservedChar c = false := by
      simp [reservedChar, h1, h2, h3, h4, h5, h6, h7, h8, h9, h10, h11, h12, h13, h14, h15, h16]
    simp only [next_token, h1, h2, h3, h4, h5, h6, h7, h8, h9, h10, h11, h12, h13, h14,
      h15, h16, if_false, if_neg, not_false_iff]
    simp only [read_text, hc, Bool.false_eq_true, if_false]
    simpa using read_text_rest_le cs

theorem tokenize_go_congr :
    ∀ fuel cs, cs.length < fuel → tokenize_go fuel cs = tokenize_go (cs.length + 1) cs := by
  intro fuel
  induction fuel using Nat.strong_induction_on with
  | _ fuel ih =>
    intro cs hlt
    match fuel, cs with
    | fuel, [] => cases fuel <;> rfl
    | 0, c :: cs => omega
    | fuel + 1, c :: cs =>
      have hrest := next_token_rest_le c cs
      have hl : cs.length + 1 < fuel + 1 := by simpa using hlt
      have h1 := ih fuel (Nat.lt_succ_self fuel) (next_token c cs).2 (by omega)
      have h2 := ih (cs.length + 1) hl (next_token c cs).2 (by omega)
      simp only [List.length_cons, tokenize_go]
      rw [h1, h2]

/-- One step of `tokenize`. -/
theorem tokenize_cons (c : Char) (cs : List Char) :
    tokenize (c :: cs) = (next_token c cs).1 :: tokenize (next_token c cs).2 := by
  have hrest := next_token_rest_le c cs
  show tokenize_go (cs.length + 1 + 1) (c :: cs) = _
  simp only [tokenize, tokenize_go]
  rw [tokenize_go_congr (cs.length + 1) _ (by omega)]

theorem tokenize_go_ends_eof :
    ∀ fuel cs, ∃ ts, tokenize_go fuel cs = ts ++ [Token.Eof] := by
  intro fuel
  induction fuel with
  | zero => intro cs; cases cs <;> exact ⟨[], rfl⟩
  | succ fuel ih =>
    intro cs
    cases cs with
    | nil => exact ⟨[], rfl⟩
    | cons c cs =>
      obtain ⟨ts, hts⟩ := ih (next_token c cs).2
      exact ⟨(next_token c cs).1 :: ts, by simp [tokenize_go, hts]⟩

/-- Claim C8: in `tokenize`, a backslash always consumes exactly the next
character (whatever it is) and yields an `Escape` token carrying it; a
backslash that is the last character of the input instead yields a literal
one-backslash text run; and tokenization is total, always producing a token
list terminated by `Eof`. -/
theorem c8_lexer_backslash :
    (∀ c cs, next_token '\\' (c :: cs) = (Token.Escape c, cs))
    ∧ (next_token '\\' [] = (Token.Text ['\\'], []))
    ∧ (∀ c cs, tokenize ('\\' :: c :: cs) = Token.Escape c :: tokenize cs)
    ∧ (tokenize ['\\'] = [Token.Text ['\\'], Token.Eof])
    ∧ (∀ cs, ∃ ts, tokenize cs = ts ++ [Token.Eof]) := by
  refine ⟨fun c cs => rfl, rfl, fun c cs => ?_, rfl, fun cs => tokenize_go_ends_eof _ cs⟩
  rw [tokenize_cons]
  rfl

/-! ## C9: condition evaluation -/

/-- Claim C9: condition evaluation is total (always returns a boolean); a
greater-than or less-than condition is `false` when the value does not parse
as a number, a `Regex` condition is `false` when the pattern does not
compile, and the `Custom` variant is `false` for every value. -/
theorem c9_condition_evaluation
    (parse_f64 : List Char → Option Rat) (regex_new : List Char → Option (List Char → Bool)) :
    (∀ cond value, Condition.evaluate parse_f64 regex_new cond value = true
      ∨ Condition.evaluate parse_f64 regex_new cond value = false)
    ∧ (∀ t value, parse_f64 value = none →
      Condition.evaluate parse_f64 regex_new (.GreaterThan t) value = false)
    ∧ (∀ t value, parse_f64 value = none →
      Condition.evaluate parse_f64 regex_new (.LessThan t) value = false)
    ∧ (∀ p value, regex_new p = none →
      Condition.evaluate parse_f64 regex_new (.Regex p) value = false)
    ∧ (∀ n value, Condition.evaluate parse_f64 regex_new (.Custom n) value = false) := by
  refine ⟨fun cond value => ?_, fun t value h => ?_, fun t value h => ?_,
    fun p value h => ?_, fun n value => rfl⟩
  · exact Bool.eq_false_or_eq_true _
  · simp [Condition.evaluate, h]
  · simp [Condition.evaluate, h]
  · simp [Condition.evaluate, h]

/-- Witness for C9 at a concrete condition, value and oracles. -/
theorem c9_condition_evaluation_witness :
    (fun (_ : List Char) => (none : Option Rat)) ("x".toList) = none
    ∧ Condition.evaluate (fun _ => none) (fun _ => none)
        (.GreaterThan 1) ("x".toList) = false :=
  ⟨rfl, (c9_condition_evaluation (fun _ => none) (fun _ => none)).2.1 1 ("x".toList) rfl⟩

/-! ## C10: inline code spans -/

theorem code_loop_no_close (texts : List (List Char)) :
    ∀ (code : List Char) (t : Token) (rest : List Token),
      text_or_backtick t = false →
      code_loop code (texts.map Token.Text ++ t :: rest)
        = .error (.Parse ("Unclosed code block".toList)) := by
  induction texts with
  | nil =>
    intro code t rest h
    cases t <;> simp_all [code_loop, text_or_backtick]
  | cons x xs ih =>
    intro code t rest h
    simpa [code_loop] using ih (code ++ x) t rest h

/-- Claim C10: inside a single-backtick code span only literal text tokens
are accepted before the closing backtick; any other token makes the parse
fail with "Unclosed code block" even if a backtick follows later (e.g.
`` `a*b` ``); and exactly two backticks not followed by a third immediately
yield an empty `Code` node, consuming nothing further. -/
theorem c10_inline_code :
    (parse ("\x60a*b\x60".toList) = .error (.Parse ("Unclosed code block".toList)))
    ∧ (∀ (texts : List (List Char)) (t : Token) (rest : List Token),
        text_or_backtick t = false →
        parse_code_or_pre (Token.Backtick :: (texts.map Token.Text ++ t :: rest))
          = .error (.Parse ("Unclosed code block".toList)))
    ∧ (∀ (t : Token) (rest : List Token), t ≠ Token.Backtick →
        parse_code_or_pre (Token.Backtick :: Token.Backtick :: t :: rest)
          = .ok (.Code [], t :: rest)) := by
  refine ⟨rfl, ?_, ?_⟩
  · intro texts t rest h
    cases texts with
    | nil =>
      have hd : parse_code_or_pre (Token.Backtick :: t :: rest) = code_loop [] (t :: rest) := by
        cases t <;> simp_all [parse_code_or_pre, text_or_backtick]
      simpa [hd] using code_loop_no_close [] [] t rest h
    | cons x xs =>
      have hd : parse_code_or_pre (Token.Backtick :: ((x :: xs).map Token.Text ++ t :: rest))
          = code_loop [] ((x :: xs).map Token.Text ++ t :: rest) := rfl
      rw [hd]
      exact code_loop_no_close (x :: xs) [] t rest h
  · intro t rest h
    cases t <;> simp_all [parse_code_or_pre]

/-- Witness for C10 at a concrete token stream. -/
theorem c10_inline_code_witness :
    text_or_backtick Token.Star = false
    ∧ parse_code_or_pre (Token.Backtick :: ([['a']].map Token.Text ++ Token.Star :: []))
        = .error (.Parse ("Unclosed code block".toList)) :=
  ⟨rfl, c10_inline_code.2.1 [['a']] Token.Star [] rfl⟩

/-! ## C6: unterminated constructs -/

/-- Claim C6: `parse` fails with a `Parse` error carrying a human-readable
reason on unterminated constructs — one concrete end-of-input instance per
construct (bold, italic, underline, strikethrough, spoiler, code, pre, link,
bracket), the two instances named by the spec among them, and, for every
scanner, the general fact that reaching the end of the token stream before
the closer yields its `Parse` error. -/
theorem c6_unterminated_constructs :
    (parse ("*unterminated".toList) = .error (.Parse ("Unclosed italic".toList)))
    ∧ (parse ("\x60code".toList) = .error (.Parse ("Unclosed code block".toList)))
    ∧ (parse ("**a".toList) = .error (.Parse ("Unclosed bold".toList)))
    ∧ (parse ("__a".toList) = .error (.Parse ("Unclosed underline".toList)))
    ∧ (parse ("~~a".toList) = .error (.Parse ("Unclosed strikethrough".toList)))
    ∧ (parse ("~a".toList) = .error (.Parse ("Unclosed spoiler".toList)))
    ∧ (parse ("\x60\x60\x60rust\nabc".toList) = .error (.Parse ("Unclosed pre block".toList)))
    ∧ (parse ("[a](b".toList) = .error (.Parse ("Unclosed link".toList)))
    ∧ (parse ("[a".toList) = .error (.Parse ("Unclosed bracket".toList)))
    ∧ (∀ fuel, parse_until_double_star fuel [] = .error (.Parse ("Unclosed bold".toList)))
    ∧ (∀ fuel, parse_until_single_star fuel [] = .error (.Parse ("Unclosed italic".toList)))
    ∧ (∀ fuel, parse_until_double_underscore fuel [] = .error (.Parse ("Unclosed underline".toList)))
    ∧ (∀ fuel, parse_until_single_underscore fuel [] = .error (.Parse ("Unclosed italic".toList)))
    ∧ (∀ fuel, parse_until_double_tilde fuel [] = .error (.Parse ("Unclosed strikethrough".toList)))
    ∧ (∀ fuel, parse_until_single_tilde fuel [] = .error (.Parse ("Unclosed spoiler".toList)))
    ∧ (∀ fuel, parse_until_right_bracket fuel [] = .error (.Parse ("Unclosed bracket".toList)))
    ∧ (∀ code, code_loop code [] = .error (.Parse ("Unclosed code block".toList)))
    ∧ (∀ lang code k, pre_loop lang code k [] = .error (.Parse ("Unclosed pre block".toList)))
    ∧ (∀ text url, link_url_loop text url [] = .error (.Parse ("Unclosed link".toList))) := by
  refine ⟨rfl, rfl, rfl, rfl, rfl, rfl, rfl, rfl, rfl,
    fun fuel => ?_, fun fuel => ?_, fun fuel => ?_, fun fuel => ?_, fun fuel => ?_,
    fun fuel => ?_, fun fuel => ?_, fun code => rfl, fun lang code k => rfl,
    fun text url => rfl⟩ <;> cases fuel <;> rfl

/-! ## C1: code/pre escaping -/

/-- Claim C1 counterexample: in the HTML dialect the content inside a code
element is produced by `escape_html` — exactly the general text escaper used
for `Text` payloads (`escape_text .Html`) — and differs from what the narrow
code escaper would give, refuting "never produced by the dialect's general
text escaper" for the HTML-like dialect. -/
theorem c1_code_escaper_counterexample :
    generate_element .Html [] (.Code ['<'])
      = .ok ("<code>".toList ++ escape_text .Html ['<'] ++ "</code>".toList)
    ∧ escape_text .Html ['<'] ≠ escape_code ['<'] :=
  ⟨rfl, by decide⟩

/-- Claim C1 (amended): in MarkdownV2, code and pre content is escaped by
the narrow `escape_code`/`escape_pre` (backslash and backtick only), never
by `escape_text`; in the HTML dialect, code and pre content is passed
through `escape_html`, which is the same general escaper `escape_text`
applies to `Text` payloads in that dialect. -/
theorem c1_code_escaper_amended (reg : Registry) (code : List Char) (lang : List Char) :
    generate_element .MarkdownV2 reg (.Code code)
      = .ok ('\x60' :: escape_code code ++ ['\x60'])
    ∧ generate_element .MarkdownV2 reg (.Pre code (some lang))
      = .ok ("\x60\x60\x60".toList ++ lang ++ '\n' :: escape_pre code ++ "\n\x60\x60\x60".toList)
    ∧ generate_element .MarkdownV2 reg (.Pre code none)
      = .ok ("\x60\x60\x60\n".toList ++ escape_pre code ++ "\n\x60\x60\x60".toList)
    ∧ generate_element .Html reg (.Code code)
      = .ok ("<code>".toList ++ escape_html code ++ "</code>".toList)
    ∧ generate_element .Html reg (.Pre code (some lang))
      = .ok ("<pre><code class=\"language-".toList ++ escape_html lang ++ "\">".toList
          ++ escape_html code ++ "</code></pre>".toList)
    ∧ generate_element .Html reg (.Pre code none)
      = .ok ("<pre>".toList ++ escape_html code ++ "</pre>".toList)
    ∧ escape_text .Html code = escape_html code
    ∧ escape_code code = escape_pre code :=
  ⟨rfl, rfl, rfl, rfl, rfl, rfl, rfl, rfl⟩

/-! ## C4: list rendering -/

/-- Claim C4 (code bug): rendering an item with one nested bullet item emits
the nested line with a trailing newline that the source's own "Remove last
newline" comment says should be removed; with a following sibling item the
separator newline then yields a blank line. -/
theorem c4_list_nested_newline :
    generate_list .MarkdownV2 []
      (.mk .Bullet [.mk [.Text ['a']] (some (.mk .Bullet [.mk [.Text ['b']] none]))])
      = .ok ("• a\n  • b\n".toList)
    ∧ ("• a\n  • b\n".toList).getLast? = some '\n'
    ∧ generate_list .MarkdownV2 []
      (.mk .Bullet [.mk [.Text ['a']] (some (.mk .Bullet [.mk [.Text ['b']] none])),
        .mk [.Text ['c']] none])
      = .ok ("• a\n  • b\n\n• c".toList)
    ∧ generate_list .MarkdownV2 []
      (.mk .Bullet [.mk [.Text ['a']] none, .mk [.Text ['b']] none])
      = .ok ("• a\n• b".toList) :=
  ⟨rfl, rfl, rfl, rfl⟩

/-! ## C2: pre block content -/

/-- Running the `parse_pre_block` accumulation loop over well-formed content
followed by the closing fence: every content token is appended verbatim, and
the first two closing backticks are pushed into the code before the third
terminates the block. -/
theorem pre_loop_close (content : List Token) :
    ∀ (k : Nat) (code : List Char) (lang : Option (List Char)) (rest : List Token),
      good_from k content = true →
      pre_loop lang code k
          (content ++ Token.Backtick :: Token.Backtick :: Token.Backtick :: rest)
        = .ok (.Pre (code ++ flat_tok content ++ ['\x60', '\x60']) lang, rest) := by
  induction content with
  | nil =>
    intro k code lang rest h
    have hk : k = 0 := by simpa [good_from] using h
    subst hk
    simp [pre_loop, flat_tok]
  | cons t ts ih =>
    intro k code lang rest h
    cases t
    case Backtick =>
      simp only [good_from, Bool.and_eq_true, decide_eq_true_eq] at h
      obtain ⟨hle, hgood⟩ := h
      have hne : ¬(k + 1 = 3) := by omega
      simp only [List.cons_append, pre_loop, hne, if_false, List.append_eq]
      rw [ih (k + 1) (code ++ ['\x60']) lang rest hgood]
      simp [flat_tok]
    case Text =>
      simp only [good_from] at h
      simp only [List.cons_append, pre_loop, List.append_eq]
      rw [ih 0 _ lang rest h]
      simp [flat_tok]
    case LineBreak =>
      simp only [good_from] at h
      simp only [List.cons_append, pre_loop, List.append_eq]
      rw [ih 0 _ lang rest h]
      simp [flat_tok]
    all_goals simp [good_from] at h

/-- Claim C2 counterexample: the pre block `"```rust\nhi```"` parses to code
`"hi``"`, not the raw content `"hi"` between the fences — the first two
backticks of the closing fence are kept in the code string. -/
theorem c2_pre_block_counterexample :
    parse ("\x60\x60\x60rust\nhi\x60\x60\x60".toList)
      = .ok [.Pre ("hi\x60\x60".toList) (some ("rust".toList))]
    ∧ ("hi\x60\x60".toList) ≠ ("hi".toList) :=
  ⟨rfl, by decide⟩

/-- Claim C2 (amended): for a pre block whose content tokens are text, line
breaks and embedded runs of at most two backticks (with no dangling
backtick run at the end), closing on three consecutive backticks yields a
`Pre` element whose code is the raw content followed by the first two
closing-fence backticks; embedded one- or two-backtick runs are kept, and
only the third closing backtick is excluded.  Stated with and without a
language tag (one line break after the tag is consumed). -/
theorem c2_pre_block_amended (lang : List Char) (content : List Token) (rest : List Token)
    (h : good_from 0 content = true) :
    (parse_pre_block (Token.Text lang :: Token.LineBreak ::
        (content ++ Token.Backtick :: Token.Backtick :: Token.Backtick :: rest))
      = .ok (.Pre (flat_tok content ++ ['\x60', '\x60']) (some lang), rest))
    ∧ (head_is_text content = false →
      parse_pre_block (content ++ Token.Backtick :: Token.Backtick :: Token.Backtick :: rest)
        = .ok (.Pre (flat_tok content ++ ['\x60', '\x60']) none, rest)) := by
  constructor
  · have hc := pre_loop_close content 0 [] (some lang) rest h
    simpa [parse_pre_block] using hc
  · intro hhead
    have hd : parse_pre_block
        (content ++ Token.Backtick :: Token.Backtick :: Token.Backtick :: rest)
        = pre_loop none [] 0
          (content ++ Token.Backtick :: Token.Backtick :: Token.Backtick :: rest) := by
      cases content with
      | nil => rfl
      | cons t ts => cases t <;> simp_all [parse_pre_block, head_is_text]
    rw [hd]
    simpa using pre_loop_close content 0 [] none rest h

/-- Witness for the amended C2 at a concrete pre block. -/
theorem c2_pre_block_amended_witness :
    good_from 0 [Token.Text ['h', 'i']] = true
    ∧ parse_pre_block (Token.Text ("rust".toList) :: Token.LineBreak ::
        ([Token.Text ['h', 'i']] ++ Token.Backtick :: Token.Backtick :: Token.Backtick :: []))
        = .ok (.Pre (flat_tok [Token.Text ['h', 'i']] ++ ['\x60', '\x60'])
            (some ("rust".toList)), []) :=
  ⟨rfl, (c2_pre_block_amended ("rust".toList) [Token.Text ['h', 'i']] [] rfl).1⟩

/-! ## C5: plain-text round trip -/

theorem replace_char_cons (a : Char) (r : List Char) (c : Char) (cs : List Char) :
    replace_char a r (c :: cs) = (if c = a then r else [c]) ++ replace_char a r cs := rfl

theorem replace_char_append (a : Char) (r : List Char) (xs ys : List Char) :
    replace_char a r (xs ++ ys) = replace_char a r xs ++ replace_char a r ys := by
  induction xs with
  | nil => rfl
  | cons x xs ih => simp [replace_char_cons, ih]

theorem escape_text_md_cons (c : Char) (cs : List Char) :
    escape_text .MarkdownV2 (c :: cs)
      = (if md_escape_char c then ['\\', c] else [c]) ++ escape_text .MarkdownV2 cs := by
  simp [escape_text]

theorem escape_html_cons (c : Char) (cs : List Char) :
    escape_html (c :: cs) = html_escape_char c ++ escape_html cs := by
  show replace_char '"' _ (replace_char '>' _ (replace_char '<' _ (replace_char '&' _ (c :: cs))))
    = _
  rw [replace_char_cons, replace_char_append, replace_char_append, replace_char_append]
  congr 1
  by_cases h1 : c = '&'
  · subst h1; decide
  by_cases h2 : c = '<'
  · subst h2; decide
  by_cases h3 : c = '>'
  · subst h3; decide
  by_cases h4 : c = '"'
  · subst h4; decide
  · simp [replace_char, h1, h2, h3, h4, html_escape_char]

theorem html_unescape_escape (cs : List Char) : html_unescape (escape_html cs) = cs := by
  induction cs with
  | nil => simp [escape_html, replace_char, html_unescape]
  | cons c cs ih =>
    rw [escape_html_cons]
    by_cases h1 : c = '&'
    · subst h1; simp [html_escape_char, html_unescape, html_entity, ih]
    by_cases h2 : c = '<'
    · subst h2; simp [html_escape_char, html_unescape, html_entity, ih]
    by_cases h3 : c = '>'
    · subst h3; simp [html_escape_char, html_unescape, html_entity, ih]
    by_cases h4 : c = '"'
    · subst h4; simp [html_escape_char, html_unescape, html_entity, ih]
    · simp [html_escape_char, h1, h2, h3, h4, html_unescape, ih]

theorem md_unescape_escape (cs : List Char) (h : ∀ c ∈ cs, c ≠ '\\') :
    md_unescape (escape_text .MarkdownV2 cs) = cs := by
  induction cs with
  | nil => simp [escape_text, md_unescape]
  | cons c cs ih =>
    have hc : c ≠ '\\' := h c (List.mem_cons_self c cs)
    have hrest : ∀ x ∈ cs, x ≠ '\\' := fun x hx => h x (List.mem_cons_of_mem c hx)
    rw [escape_text_md_cons]
    by_cases hm : md_escape_char c
    · simp [hm, md_unescape, md_take_next, ih hrest]
    · simp [hm, md_unescape, hc, ih hrest]

theorem unescape_escape_text (mode : ParseMode) (cs : List Char)
    (h : ∀ c ∈ cs, reservedChar c = false) :
    unescape mode (escape_text mode cs) = cs := by
  cases mode with
  | MarkdownV2 =>
    apply md_unescape_escape
    intro c hc hceq
    have hrc := h c hc
    rw [hceq] at hrc
    exact absurd hrc (by decide)
  | Html => exact html_unescape_escape cs

theorem read_text_all (cs : List Char) (h : ∀ c ∈ cs, reservedChar c = false) :
    read_text cs = (cs, []) := by
  induction cs with
  | nil => rfl
  | cons c cs ih =>
    have hc := h c (List.mem_cons_self c cs)
    simp only [read_text, hc, Bool.false_eq_true, if_false]
    rw [ih (fun x hx => h x (List.mem_cons_of_mem c hx))]

theorem next_token_nonreserved (c : Char) (cs : List Char) (hc : reservedChar c = false)
    (hcs : ∀ x ∈ cs, reservedChar x = false) :
    next_token c cs = (Token.Text (c :: cs), []) := by
  have hall : ∀ x ∈ c :: cs, reservedChar x = false := by
    intro x hx
    rcases List.mem_cons.mp hx with h | h
    · rw [h]; exact hc
    · exact hcs x h
  simp only [reservedChar, Bool.or_eq_false_iff, decide_eq_false_iff_not] at hc
  obtain ⟨⟨⟨⟨⟨⟨⟨⟨⟨⟨⟨⟨⟨⟨⟨h1, h2⟩, h3⟩, h4⟩, h5⟩, h6⟩, h7⟩, h8⟩, h9⟩, h10⟩,
    h11⟩, h12⟩, h13⟩, h14⟩, h15⟩, h16⟩ := hc
  simp only [next_token, h1, h2, h3, h4, h5, h6, h7, h8, h9, h10, h11, h12, h13, h14,
    h15, h16, if_false]
  rw [read_text_all (c :: cs) hall]

theorem tokenize_all_text (c : Char) (cs : List Char)
    (h : ∀ x ∈ c :: cs, reservedChar x = false) :
    tokenize (c :: cs) = [Token.Text (c :: cs), Token.Eof] := by
  rw [tokenize_cons, next_token_nonreserved c cs (h c (List.mem_cons_self c cs))
    (fun x hx => h x (List.mem_cons_of_mem c hx))]
  rfl

/-- Claim C5: for every input with no lexer-reserved characters, parsing and
then rendering in either dialect yields exactly the dialect's escaping of
the original text, and undoing the dialect's escape sequences recovers the
original string. -/
theorem c5_plain_text_roundtrip (mode : ParseMode) (reg : Registry) (cs : List Char)
    (h : ∀ c ∈ cs, reservedChar c = false) :
    ∃ es, parse cs = .ok es
      ∧ generate_elements mode reg es = .ok (escape_text mode cs)
      ∧ unescape mode (escape_text mode cs) = cs := by
  cases cs with
  | nil =>
    refine ⟨[], rfl, ?_, unescape_escape_text mode [] h⟩
    cases mode <;> rfl
  | cons c cs =>
    refine ⟨[.Text (c :: cs)], ?_, ?_, unescape_escape_text mode _ h⟩
    · have ht := tokenize_all_text c cs h
      simp only [parse, ht]
      rfl
    · show Except.ok (escape_text mode (c :: cs) ++ []) = Except.ok (escape_text mode (c :: cs))
      rw [List.append_nil]

/-- Witness for C5 at a concrete plain string. -/
theorem c5_plain_text_roundtrip_witness :
    (∀ c ∈ ("Hello, world!".toList), reservedChar c = false)
    ∧ ∃ es, parse ("Hello, world!".toList) = .ok es
      ∧ generate_elements .MarkdownV2 [] es
          = .ok (escape_text .MarkdownV2 ("Hello, world!".toList))
      ∧ unescape .MarkdownV2 (escape_text .MarkdownV2 ("Hello, world!".toList))
          = ("Hello, world!".toList) :=
  ⟨by decide, c5_plain_text_roundtrip .MarkdownV2 [] _ (by decide)⟩

/-! ## C3: table width invariant -/

theorem cell_text_length (c : TableCell) : (cell_text c).length = cell_width c := by
  cases c with
  | mk content a csp rsp =>
    simp only [cell_text, cell_width, TableCell.content, List.length_flatten, List.map_map]
    congr 1
    apply List.map_congr_left
    intro e he
    cases e <;> rfl

theorem pad_cell_length (c : TableCell) (w : Nat) :
    (pad_cell c w).length = 2 + max w (cell_width c) := by
  rw [← cell_text_length c]
  cases hA : c.align <;>
    simp [pad_cell, hA, spaces] <;> omega

theorem row_go_length_of_le (sep : List Char) :
    ∀ (cells : List TableCell) (ws : List Nat), cells.length = ws.length →
      (∀ p ∈ cells.zip ws, cell_width p.1 ≤ p.2) →
      (row_go sep cells ws).length = (ws.map fun w => 2 + w + sep.length).sum := by
  intro cells
  induction cells with
  | nil =>
    intro ws hlen _
    cases ws with
    | nil => simp [row_go]
    | cons w ws => simp at hlen
  | cons c cs ih =>
    intro ws hlen hle
    cases ws with
    | nil => simp at hlen
    | cons w ws =>
      have hcw : cell_width c ≤ w := hle (c, w) (by simp)
      have ht := ih ws (by simpa using hlen) (fun p hp => hle p (by simp [hp]))
      simp only [row_go, List.length_append, pad_cell_length, ht, List.map_cons, List.sum_cons]
      all_goals omega

theorem upd_widths_length : ∀ (ws : List Nat) (row : List TableCell),
    (upd_widths ws row).length = ws.length := by
  intro ws
  induction ws with
  | nil => intro row; cases row <;> rfl
  | cons w ws ih =>
    intro row
    cases row with
    | nil => rfl
    | cons c cs => simp [upd_widths, ih]

theorem foldl_upd_length (rows : List (List TableCell)) :
    ∀ ws, (rows.foldl upd_widths ws).length = ws.length := by
  induction rows with
  | nil => intro ws; rfl
  | cons r rows ih => intro ws; rw [List.foldl_cons, ih, upd_widths_length]

theorem zip_self_le : ∀ (ws : List Nat) (p : Nat × Nat), p ∈ ws.zip ws → p.1 ≤ p.2 := by
  intro ws
  induction ws with
  | nil => simp
  | cons w ws ih =>
    intro p hp
    rcases List.mem_cons.mp hp with h | h
    · simp [h]
    · exact ih p h

/-- Pointwise order on width vectors of equal length. -/
def ptle (ws1 ws2 : List Nat) : Prop :=
  ws1.length = ws2.length ∧ ∀ p ∈ ws1.zip ws2, p.1 ≤ p.2

theorem ptle_refl (ws : List Nat) : ptle ws ws :=
  ⟨rfl, zip_self_le ws⟩

theorem ptle_cons {w1 w2 : Nat} {t1 t2 : List Nat} (h : ptle (w1 :: t1) (w2 :: t2)) :
    w1 ≤ w2 ∧ ptle t1 t2 := by
  obtain ⟨hlen, hle⟩ := h
  refine ⟨hle (w1, w2) (by simp), by simpa using hlen, fun p hp => hle p (by simp [hp])⟩

theorem ptle_trans : ∀ {a b c : List Nat}, ptle a b → ptle b c → ptle a c := by
  intro a
  induction a with
  | nil =>
    intro b c hab hbc
    obtain ⟨h1, _⟩ := hab
    obtain ⟨h2, _⟩ := hbc
    cases b with
    | nil =>
      cases c with
      | nil => exact ptle_refl []
      | cons _ _ => simp at h2
    | cons _ _ => simp at h1
  | cons x xs ih =>
    intro b c hab hbc
    cases b with
    | nil => simp [ptle] at hab
    | cons y ys =>
      cases c with
      | nil => simp [ptle] at hbc
      | cons z zs =>
        obtain ⟨hxy, hab'⟩ := ptle_cons hab
        obtain ⟨hyz, hbc'⟩ := ptle_cons hbc
        obtain ⟨hlen, hle⟩ := ih hab' hbc'
        refine ⟨by simpa using hlen, fun p hp => ?_⟩
        rcases List.mem_cons.mp hp with h | h
        · simp [h]; omega
        · exact hle p h

theorem ptle_upd (ws : List Nat) : ∀ (row : List TableCell), ptle ws (upd_widths ws row) := by
  induction ws with
  | nil =>
    intro row
    cases row <;> exact ptle_refl _
  | cons w t ih =>
    intro row
    cases row with
    | nil => exact ptle_refl _
    | cons c cs =>
      obtain ⟨hlen, hle⟩ := ih cs
      refine ⟨by simp [upd_widths, hlen], fun p hp => ?_⟩
      simp only [upd_widths, List.zip_cons_cons] at hp
      rcases List.mem_cons.mp hp with h | h
      · simp [h]
      · exact hle p h

theorem ptle_foldl (rows : List (List TableCell)) :
    ∀ ws, ptle ws (rows.foldl upd_widths ws) := by
  induction rows with
  | nil => intro ws; exact ptle_refl ws
  | cons r rows ih =>
    intro ws
    exact ptle_trans (ptle_upd ws r) (ih (upd_widths ws r))

theorem upd_dominates : ∀ (ws : List Nat) (row : List TableCell) (p : TableCell × Nat),
    p ∈ row.zip (upd_widths ws row) → cell_width p.1 ≤ p.2 := by
  intro ws
  induction ws with
  | nil =>
    intro row p hp
    cases row <;> simp [upd_widths] at hp
  | cons w t ih =>
    intro row p hp
    cases row with
    | nil => simp at hp
    | cons c cs =>
      simp only [upd_widths, List.zip_cons_cons] at hp
      rcases List.mem_cons.mp hp with h | h
      · simp [h]
      · exact ih cs p h

theorem zip_le_mono : ∀ (row : List TableCell) (ws1 ws2 : List Nat), ptle ws1 ws2 →
    (∀ p ∈ row.zip ws1, cell_width p.1 ≤ p.2) →
    (∀ p ∈ row.zip ws2, cell_width p.1 ≤ p.2) := by
  intro row
  induction row with
  | nil => simp
  | cons c cs ih =>
    intro ws1 ws2 hpt h1 p hp
    cases ws2 with
    | nil => simp at hp
    | cons w2 t2 =>
      cases ws1 with
      | nil => obtain ⟨hlen, _⟩ := hpt; simp at hlen
      | cons w1 t1 =>
        obtain ⟨hw, hpt'⟩ := ptle_cons hpt
        simp only [List.zip_cons_cons] at hp
        rcases List.mem_cons.mp hp with h | h
        · have := h1 (c, w1) (by simp)
          simp [h]
          simp at this
          omega
        · exact ih t1 t2 hpt' (fun q hq => h1 q (by simp [hq])) p h

theorem calc_widths_dominates (rowsL : List (List TableCell)) (r : List TableCell)
    (hr : r ∈ rowsL) :
    ∀ p ∈ r.zip (calculate_column_widths rowsL), cell_width p.1 ≤ p.2 := by
  obtain ⟨pre, post, rfl⟩ := List.append_of_mem hr
  unfold calculate_column_widths
  have hne : ((pre ++ r :: post).isEmpty) = false := by simp
  simp only [hne, Bool.false_eq_true, if_false]
  rw [List.foldl_append, List.foldl_cons]
  exact zip_le_mono r _ _ (ptle_foldl post _) (upd_dominates _ r)

theorem foldl_max_uniform (K : Nat) : ∀ (l : List Nat), (∀ x ∈ l, x = K) →
    l.foldl max K = K := by
  intro l
  induction l with
  | nil => intro _; rfl
  | cons x xs ih =>
    intro h
    rw [List.foldl_cons, h x (by simp), Nat.max_self]
    exact ih (fun y hy => h y (by simp [hy]))

theorem calc_widths_length_uniform (headers : List TableCell) (rest : List (List TableCell))
    (h : ∀ r ∈ rest, r.length = headers.length) :
    (calculate_column_widths (headers :: rest)).length = headers.length := by
  unfold calculate_column_widths
  simp only [List.isEmpty_cons, Bool.false_eq_true, if_false]
  rw [foldl_upd_length]
  rw [List.length_replicate]
  simp only [List.map_cons, List.foldl_cons, Nat.zero_max]
  apply foldl_max_uniform
  intro x hx
  obtain ⟨r, hr, rfl⟩ := List.mem_map.mp hx
  exact h r hr

/-- Claim C3 counterexample: a Compact-style table whose single data row has
one cell against a two-cell header renders a data-row line of length 6 and a
header line of length 11 — ragged rows are rendered shorter, not padded with
empty cells, so the claimed equal-width invariant fails. -/
theorem c3_table_width_counterexample :
    generate_table (TableNode.mk
        [TableCell.mk [.Text ['a', 'b']] .Left 1 1, TableCell.mk [.Text ['c', 'd']] .Left 1 1]
        [TableRow.mk [TableCell.mk [.Text ['x']] .Left 1 1]] .Compact)
      = ("\x60\x60\x60\n  ab   cd  \n  x   \n\x60\x60\x60".toList)
    ∧ (linesOf (generate_table (TableNode.mk
        [TableCell.mk [.Text ['a', 'b']] .Left 1 1, TableCell.mk [.Text ['c', 'd']] .Left 1 1]
        [TableRow.mk [TableCell.mk [.Text ['x']] .Left 1 1]] .Compact))).map List.length
      = [3, 11, 6, 3]
    ∧ (11 : Nat) ≠ 6 :=
  ⟨by decide, by decide, by decide⟩

/-- Claim C3 (amended): table rendering is total (never fails, ragged rows
included), column widths are the maxima of rendered `Text` content over the
header and all rows with missing cells contributing zero, and every present
cell is padded to its column width; when the header and all data rows have
the same cell count, every rendered data row has exactly the same character
width as the rendered header row for any cell separator (hence in all four
visual styles).  Rows with fewer cells than the header are rendered shorter:
their missing cells are omitted, not padded. -/
theorem c3_table_width_amended (t : TableNode)
    (h : ∀ r ∈ t.rows, r.cells.length = t.headers.length) :
    (∀ mode reg, generate_element mode reg (.Table t) = .ok (generate_table t))
    ∧ (∀ (sep : List Char) r, r ∈ t.rows →
        (format_table_row r.cells
            (calculate_column_widths (t.headers :: t.rows.map TableRow.cells)) sep).length
          = (format_table_row t.headers
            (calculate_column_widths (t.headers :: t.rows.map TableRow.cells)) sep).length) := by
  constructor
  · intro mode reg; rfl
  · intro sep r hr
    have hwslen : (calculate_column_widths (t.headers :: t.rows.map TableRow.cells)).length
        = t.headers.length := by
      apply calc_widths_length_uniform
      intro rc hrc
      obtain ⟨row, hrow, rfl⟩ := List.mem_map.mp hrc
      exact h row hrow
    have hhdr := calc_widths_dominates (t.headers :: t.rows.map TableRow.cells) t.headers
      (by simp)
    have hrow := calc_widths_dominates (t.headers :: t.rows.map TableRow.cells) r.cells
      (List.mem_cons.mpr (Or.inr (List.mem_map_of_mem TableRow.cells hr)))
    unfold format_table_row
    simp only [List.length_append]
    rw [row_go_length_of_le sep r.cells _ (by rw [h r hr, hwslen]) hrow,
      row_go_length_of_le sep t.headers _ hwslen.symm hhdr]

/-- Concrete uniform table for the C3 witness. -/
def c3_example_table : TableNode :=
  .mk [.mk [.Text ['a', 'b']] .Left 1 1, .mk [.Text ['c', 'd']] .Left 1 1]
    [.mk [.mk [.Text ['x']] .Left 1 1, .mk [.Text ['y']] .Left 1 1]] .Unicode

/-- Witness for the amended C3 at a concrete uniform table. -/
theorem c3_table_width_amended_witness :
    (∀ r ∈ c3_example_table.rows, r.cells.length = c3_example_table.headers.length)
    ∧ ((∀ mode reg, generate_element mode reg (.Table c3_example_table)
          = .ok (generate_table c3_example_table))
      ∧ (∀ (sep : List Char) r, r ∈ c3_example_table.rows →
          (format_table_row r.cells
              (calculate_column_widths
                (c3_example_table.headers :: c3_example_table.rows.map TableRow.cells)) sep).length
            = (format_table_row c3_example_table.headers
              (calculate_column_widths
                (c3_example_table.headers :: c3_example_table.rows.map TableRow.cells)) sep).length)) :=
  ⟨by decide, c3_table_width_amended c3_example_table (by decide)⟩

/-! ## C7: generation failure modes -/

theorem fnf_shape_bind {reg : Registry} {r : Except Error (List Char)}
    {k : List Char → Except Error (List Char)}
    (h1 : fnf_shape reg r) (h2 : ∀ s, fnf_shape reg (k s)) :
    fnf_shape reg (r >>= k) := by
  rcases h1 with ⟨s, hs⟩ | ⟨name, hn, hl⟩
  · rw [hs]
    exact h2 s
  · rw [hn]
    exact Or.inr ⟨name, rfl, hl⟩

/-- Joint shape analysis of the generator by strong induction on size:
assuming every registered formatter succeeds, generation either succeeds or
fails with `FormatterNotFound` for an unregistered name, and succeeds
whenever no custom node is reachable. -/
theorem gen_shape_all : ∀ n : Nat,
    (∀ (mode : ParseMode) (reg : Registry) (e : Element), total_reg reg → sizeOf e ≤ n →
      fnf_shape reg (generate_element mode reg e)
      ∧ (no_custom e = true → ∃ s, generate_element mode reg e = .ok s))
    ∧ (∀ (mode : ParseMode) (reg : Registry) (es : List Element), total_reg reg → sizeOf es ≤ n →
      fnf_shape reg (generate_elements mode reg es)
      ∧ (no_custom_list es = true → ∃ s, generate_elements mode reg es = .ok s))
    ∧ (∀ (mode : ParseMode) (reg : Registry) (l : ListNode), total_reg reg → sizeOf l ≤ n →
      fnf_shape reg (generate_list mode reg l)
      ∧ (no_custom_listnode l = true → ∃ s, generate_list mode reg l = .ok s))
    ∧ (∀ (mode : ParseMode) (reg : Registry) (style : ListStyle) (i : Nat)
        (items : List ListItem), total_reg reg → sizeOf items ≤ n →
      fnf_shape reg (generate_list_items mode reg style i items)
      ∧ (no_custom_items items = true →
          ∃ s, generate_list_items mode reg style i items = .ok s)) := by
  intro n
  induction n using Nat.strong_induction_on with
  | _ n ih =>
    refine ⟨?_, ?_, ?_, ?_⟩
    · -- generate_element
      intro mode reg e htot hle
      cases e with
      | Text s =>
        exact ⟨Or.inl ⟨_, rfl⟩, fun _ => ⟨_, rfl⟩⟩
      | Bold es =>
        have hlt : sizeOf es < n := by
          have : sizeOf es < sizeOf (Element.Bold es) := by simp_arith
          omega
        obtain ⟨hsh, hok⟩ := ((ih (sizeOf es) hlt).2.1) mode reg es htot (Nat.le_refl _)
        constructor
        · simp only [generate_element]
          apply fnf_shape_bind hsh
          intro s
          cases mode <;> exact Or.inl ⟨_, rfl⟩
        · intro hnc
          simp only [no_custom] at hnc
          obtain ⟨s, hs⟩ := hok hnc
          simp only [generate_element, hs]
          cases mode <;> exact ⟨_, rfl⟩
      | Italic es =>
        have hlt : sizeOf es < n := by
          have : sizeOf es < sizeOf (Element.Italic es) := by simp_arith
          omega
        obtain ⟨hsh, hok⟩ := ((ih (sizeOf es) hlt).2.1) mode reg es htot (Nat.le_refl _)
        constructor
        · simp only [generate_element]
          apply fnf_shape_bind hsh
          intro s
          cases mode <;> exact Or.inl ⟨_, rfl⟩
        · intro hnc
          simp only [no_custom] at hnc
          obtain ⟨s, hs⟩ := hok hnc
          simp only [generate_element, hs]
          cases mode <;> exact ⟨_, rfl⟩
      | Code c =>
        cases mode <;> exact ⟨Or.inl ⟨_, rfl⟩, fun _ => ⟨_, rfl⟩⟩
      | Pre c lang =>
        cases mode <;> cases lang <;> exact ⟨Or.inl ⟨_, rfl⟩, fun _ => ⟨_, rfl⟩⟩
      | Underline es =>
        have hlt : sizeOf es < n := by
          have : sizeOf es < sizeOf (Element.Underline es) := by simp_arith
          omega
        obtain ⟨hsh, hok⟩ := ((ih (sizeOf es) hlt).2.1) mode reg es htot (Nat.le_refl _)
        constructor
        · simp only [generate_element]
          apply fnf_shape_bind hsh
          intro s
          cases mode <;> exact Or.inl ⟨_, rfl⟩
        · intro hnc
          simp only [no_custom] at hnc
          obtain ⟨s, hs⟩ := hok hnc
          simp only [generate_element, hs]
          cases mode <;> exact ⟨_, rfl⟩
      | Strikethrough es =>
        have hlt : sizeOf es < n := by
          have : sizeOf es < sizeOf (Element.Strikethrough es) := by simp_arith
          omega
        obtain ⟨hsh, hok⟩ := ((ih (sizeOf es) hlt).2.1) mode reg es htot (Nat.le_refl _)
        constructor
        · simp only [generate_element]
          apply fnf_shape_bind hsh
          intro s
          cases mode <;> exact Or.inl ⟨_, rfl⟩
        · intro hnc
          simp only [no_custom] at hnc
          obtain ⟨s, hs⟩ := hok hnc
          simp only [generate_element, hs]
          cases mode <;> exact ⟨_, rfl⟩
      | Spoiler es =>
        have hlt : sizeOf es < n := by
          have : sizeOf es < sizeOf (Element.Spoiler es) := by simp_arith
          omega
        obtain ⟨hsh, hok⟩ := ((ih (sizeOf es) hlt).2.1) mode reg es htot (Nat.le_refl _)
        constructor
        · simp only [generate_element]
          apply fnf_shape_bind hsh
          intro s
          cases mode <;> exact Or.inl ⟨_, rfl⟩
        · intro hnc
          simp only [no_custom] at hnc
          obtain ⟨s, hs⟩ := hok hnc
          simp only [generate_element, hs]
          cases mode <;> exact ⟨_, rfl⟩
      | Link text url =>
        have hlt : sizeOf text < n := by
          have : sizeOf text < sizeOf (Element.Link text url) := by simp_arith
          omega
        obtain ⟨hsh, hok⟩ := ((ih (sizeOf text) hlt).2.1) mode reg text htot (Nat.le_refl _)
        constructor
        · simp only [generate_element]
          apply fnf_shape_bind hsh
          intro s
          cases mode <;> exact Or.inl ⟨_, rfl⟩
        · intro hnc
          simp only [no_custom] at hnc
          obtain ⟨s, hs⟩ := hok hnc
          simp only [generate_element, hs]
          cases mode <;> exact ⟨_, rfl⟩
      | TextLink text url =>
        cases mode <;> exact ⟨Or.inl ⟨_, rfl⟩, fun _ => ⟨_, rfl⟩⟩
      | Mention u =>
        exact ⟨Or.inl ⟨_, rfl⟩, fun _ => ⟨_, rfl⟩⟩
      | MentionId uid text =>
        cases mode <;> exact ⟨Or.inl ⟨_, rfl⟩, fun _ => ⟨_, rfl⟩⟩
      | Hashtag tag =>
        exact ⟨Or.inl ⟨_, rfl⟩, fun _ => ⟨_, rfl⟩⟩
      | Command name args =>
        constructor
        · simp only [generate_element]
          split <;> exact Or.inl ⟨_, rfl⟩
        · intro _
          simp only [generate_element]
          split <;> exact ⟨_, rfl⟩
      | Emoji s =>
        exact ⟨Or.inl ⟨_, rfl⟩, fun _ => ⟨_, rfl⟩⟩
      | CustomEmoji emoji id =>
        cases mode <;> exact ⟨Or.inl ⟨_, rfl⟩, fun _ => ⟨_, rfl⟩⟩
      | List l =>
        have hlt : sizeOf l < n := by
          have : sizeOf l < sizeOf (Element.List l) := by simp_arith
          omega
        obtain ⟨hsh, hok⟩ := ((ih (sizeOf l) hlt).2.2.1) mode reg l htot (Nat.le_refl _)
        exact ⟨hsh, fun hnc => hok (by simpa [no_custom] using hnc)⟩
      | Table t =>
        exact ⟨Or.inl ⟨_, rfl⟩, fun _ => ⟨_, rfl⟩⟩
      | Quote es =>
        have hlt : sizeOf es < n := by
          have : sizeOf es < sizeOf (Element.Quote es) := by simp_arith
          omega
        obtain ⟨hsh, hok⟩ := ((ih (sizeOf es) hlt).2.1) mode reg es htot (Nat.le_refl _)
        constructor
        · simp only [generate_element]
          apply fnf_shape_bind hsh
          intro s
          cases mode <;> exact Or.inl ⟨_, rfl⟩
        · intro hnc
          simp only [no_custom] at hnc
          obtain ⟨s, hs⟩ := hok hnc
          simp only [generate_element, hs]
          cases mode <;> exact ⟨_, rfl⟩
      | Custom name value =>
        constructor
        · simp only [generate_element]
          cases hl : lookup_formatter reg name with
          | some f =>
            obtain ⟨s, hs⟩ := htot name f hl value mode
            refine Or.inl ⟨s, ?_⟩
            show (f value mode >>= fun r => Except.ok r) = Except.ok s
            rw [hs]
            rfl
          | none => exact Or.inr ⟨name, rfl, hl⟩
        · intro hnc
          simp [no_custom] at hnc
      | Group es =>
        have hlt : sizeOf es < n := by
          have : sizeOf es < sizeOf (Element.Group es) := by simp_arith
          omega
        obtain ⟨hsh, hok⟩ := ((ih (sizeOf es) hlt).2.1) mode reg es htot (Nat.le_refl _)
        exact ⟨hsh, fun hnc => hok (by simpa [no_custom] using hnc)⟩
    · -- generate_elements
      intro mode reg es htot hle
      cases es with
      | nil => exact ⟨Or.inl ⟨_, rfl⟩, fun _ => ⟨_, rfl⟩⟩
      | cons e es =>
        have hlt1 : sizeOf e < n := by
          have : sizeOf e < sizeOf (e :: es) := by simp_arith
          omega
        have hlt2 : sizeOf es < n := by
          have : sizeOf es < sizeOf (e :: es) := by simp_arith
          omega
        obtain ⟨hsh1, hok1⟩ := ((ih (sizeOf e) hlt1).1) mode reg e htot (Nat.le_refl _)
        obtain ⟨hsh2, hok2⟩ := ((ih (sizeOf es) hlt2).2.1) mode reg es htot (Nat.le_refl _)
        constructor
        · simp only [generate_elements]
          apply fnf_shape_bind hsh1
          intro s
          apply fnf_shape_bind hsh2
          intro r
          exact Or.inl ⟨_, rfl⟩
        · intro hnc
          simp only [no_custom_list, Bool.and_eq_true] at hnc
          obtain ⟨s, hs⟩ := hok1 hnc.1
          obtain ⟨r, hr⟩ := hok2 hnc.2
          exact ⟨s ++ r, by simp only [generate_elements, hs, hr]; rfl⟩
    · -- generate_list
      intro mode reg l htot hle
      cases l with
      | mk style items =>
        have hlt : sizeOf items < n := by
          have : sizeOf items < sizeOf (ListNode.mk style items) := by simp_arith
          omega
        obtain ⟨hsh, hok⟩ := ((ih (sizeOf items) hlt).2.2.2) mode reg style 0 items htot
          (Nat.le_refl _)
        exact ⟨hsh, fun hnc => hok (by simpa [no_custom_listnode] using hnc)⟩
    · -- generate_list_items
      intro mode reg style i items htot hle
      cases items with
      | nil => exact ⟨Or.inl ⟨_, rfl⟩, fun _ => ⟨_, rfl⟩⟩
      | cons item rest =>
        cases item with
        | mk content nested =>
          cases nested with
          | some nl =>
            have hlt1 : sizeOf content < n := by
              have : sizeOf content < sizeOf (ListItem.mk content (some nl) :: rest) := by
                simp_arith
              omega
            have hlt2 : sizeOf nl < n := by
              have : sizeOf nl < sizeOf (ListItem.mk content (some nl) :: rest) := by
                simp_arith
              omega
            have hlt3 : sizeOf rest < n := by
              have : sizeOf rest < sizeOf (ListItem.mk content (some nl) :: rest) := by
                simp_arith
              omega
            obtain ⟨hsh1, hok1⟩ := ((ih (sizeOf content) hlt1).2.1) mode reg content htot
              (Nat.le_refl _)
            obtain ⟨hsh2, hok2⟩ := ((ih (sizeOf nl) hlt2).2.2.1) mode reg nl htot (Nat.le_refl _)
            obtain ⟨hsh3, hok3⟩ := ((ih (sizeOf rest) hlt3).2.2.2) mode reg style (i + 1) rest
              htot (Nat.le_refl _)
            constructor
            · simp only [generate_list_items]
              apply fnf_shape_bind hsh1
              intro s
              apply fnf_shape_bind hsh2
              intro s2
              apply fnf_shape_bind hsh3
              intro tail
              exact Or.inl ⟨_, rfl⟩
            · intro hnc
              simp only [no_custom_items, Bool.and_eq_true] at hnc
              obtain ⟨⟨h1, h2⟩, h3⟩ := hnc
              obtain ⟨s, hs⟩ := hok1 h1
              obtain ⟨s2, hs2⟩ := hok2 h2
              obtain ⟨tail, htail⟩ := hok3 h3
              exact ⟨_, by simp only [generate_list_items, hs, hs2, htail]; rfl⟩
          | none =>
            have hlt1 : sizeOf content < n := by
              have : sizeOf content < sizeOf (ListItem.mk content none :: rest) := by
                simp_arith
              omega
            have hlt3 : sizeOf rest < n := by
              have : sizeOf rest < sizeOf (ListItem.mk content none :: rest) := by
                simp_arith
              omega
            obtain ⟨hsh1, hok1⟩ := ((ih (sizeOf content) hlt1).2.1) mode reg content htot
              (Nat.le_refl _)
            obtain ⟨hsh3, hok3⟩ := ((ih (sizeOf rest) hlt3).2.2.2) mode reg style (i + 1) rest
              htot (Nat.le_refl _)
            constructor
            · simp only [generate_list_items]
              apply fnf_shape_bind hsh1
              intro s
              apply fnf_shape_bind hsh3
              intro tail
              exact Or.inl ⟨_, rfl⟩
            · intro hnc
              simp only [no_custom_items, Bool.and_eq_true] at hnc
              obtain ⟨s, hs⟩ := hok1 hnc.1
              obtain ⟨tail, htail⟩ := hok3 hnc.2
              exact ⟨_, by simp only [generate_list_items, hs, htail]; rfl⟩

/-- Claim C7: with a registry whose formatters all succeed (as every
formatter shipped in the repository does) and a writer that cannot fail,
generation fails only with `FormatterNotFound`, carrying the name of a
`Custom` node's formatter that is missing from the registry; a `Custom` node
with an unregistered name fails with exactly that error, and every element
free of (rendered) custom nodes generates successfully. -/
theorem c7_render_errors (mode : ParseMode) (reg : Registry) (e : Element)
    (htot : total_reg reg) :
    (no_custom e = true → ∃ s, generate_element mode reg e = .ok s)
    ∧ (∀ err, generate_element mode reg e = .error err →
        ∃ name, err = .FormatterNotFound name ∧ lookup_formatter reg name = none)
    ∧ (∀ name value, lookup_formatter reg name = none →
        generate_element mode reg (.Custom name value) = .error (.FormatterNotFound name)) := by
  obtain ⟨hsh, hok⟩ := (gen_shape_all (sizeOf e)).1 mode reg e htot (Nat.le_refl _)
  refine ⟨hok, ?_, ?_⟩
  · intro err herr
    rcases hsh with ⟨s, hs⟩ | ⟨name, hn, hl⟩
    · rw [hs] at herr
      cases herr
    · rw [hn] at herr
      injection herr with h
      exact ⟨name, h.symm, hl⟩
  · intro name value hl
    simp [generate_element, hl]

/-- Witness for C7 at the empty registry and a concrete element. -/
theorem c7_render_errors_witness :
    total_reg []
    ∧ ((no_custom (Element.Text ['a']) = true →
        ∃ s, generate_element .MarkdownV2 [] (.Text ['a']) = .ok s)
      ∧ (∀ err, generate_element .MarkdownV2 [] (.Text ['a']) = .error err →
          ∃ name, err = .FormatterNotFound name ∧ lookup_formatter [] name = none)
      ∧ (∀ name value, lookup_formatter [] name = none →
          generate_element .MarkdownV2 [] (.Custom name value)
            = .error (.FormatterNotFound name))) :=
  by
  have htot : total_reg [] := by
    intro name f h
    simp [lookup_formatter] at h
  exact ⟨htot, c7_render_errors .MarkdownV2 [] (.Text ['a']) htot⟩

end Msg
